import Mathlib

/-!
Verification development for the pixelforge renderer.

The JavaScript sources are shallowly embedded: JS numbers are modelled as
exact rationals (the claims under study are about algorithmic structure,
not IEEE rounding), fallible operations return Option, and the mutable
per-pixel PRNG seed is threaded as explicit state.  Array reads that the
source performs only under the documented mesh invariant (every triangle
index smaller than the vertex count) are modelled with a default value.
Where JS division by zero would produce an infinity, the rational model
yields 0; every theorem below is insensitive to that case or avoids it.
-/

namespace PixelForge

/-- Vector with three rational components, modelling a JS array [x, y, z]. -/
structure Vec3 where
  x : ℚ
  y : ℚ
  z : ℚ
deriving DecidableEq, Repr, Inhabited

/-- Triangle as three vertex indices, modelling a JS array [i0, i1, i2]. -/
structure Tri where
  a : ℕ
  b : ℕ
  c : ℕ
deriving DecidableEq, Repr, Inhabited

/-- RGB color triple, modelling a JS array [r, g, b]. -/
structure Color where
  r : ℚ
  g : ℚ
  bl : ℚ
deriving DecidableEq, Repr, Inhabited

/-! Shared rendering constants from raytrace-common.js and primitives.js. -/

def RT_EPSILON : ℚ := 1 / 1000000
def RT_SHADOW_BIAS : ℚ := 1 / 2
def RT_SPECULAR_EXP : ℕ := 64
def RT_SPECULAR_STR : ℚ := 1 / 2
def RT_SHADOW_SAMPLES : ℕ := 16
def RT_LIGHT_RADIUS : ℚ := 15 / 100
def RT_AO_SAMPLES : ℕ := 8
def RT_AO_RADIUS : ℚ := 40
def RT_AO_STRENGTH : ℚ := 6 / 10
def RT_MAX_BOUNCES : ℕ := 3
def RT_AA_GRID : ℕ := 2
def WIDTH : ℕ := 800
def HEIGHT : ℕ := 420
def camZ : ℚ := -500
def fov : ℚ := 500
def ambient : ℚ := 4 / 10

/-- Absolute value as computed by Math.abs, written with a sign test so
that kernel evaluation of the model is possible; it agrees with the
Mathlib absolute value (see qAbs_eq_abs). -/
def qAbs (q : ℚ) : ℚ := if q < 0 then -q else q

/-- Result record of the ray-triangle test, modelling the JS object
with fields t, u, v. -/
structure MTHit where
  t : ℚ
  u : ℚ
  v : ℚ
deriving DecidableEq, Repr

/-- Determinant computed by the Moeller-Trumbore test.  The source
computes it through shared locals e1, e2, p; the subexpressions of the
test are split into named definitions here so that the miss conditions
of claim C6 can be stated, with the formulas kept verbatim. -/
def mtDet (dx dy dz : ℚ) (v0 v1 v2 : Vec3) : ℚ :=
  let e1x := v1.x - v0.x; let e1y := v1.y - v0.y; let e1z := v1.z - v0.z
  let e2x := v2.x - v0.x; let e2y := v2.y - v0.y; let e2z := v2.z - v0.z
  e1x * (dy * e2z - dz * e2y) + e1y * (dz * e2x - dx * e2z) +
    e1z * (dx * e2y - dy * e2x)

/-- Barycentric u solved by the Moeller-Trumbore test. -/
def mtU (ox oy oz dx dy dz : ℚ) (v0 v1 v2 : Vec3) : ℚ :=
  let e2x := v2.x - v0.x; let e2y := v2.y - v0.y; let e2z := v2.z - v0.z
  let px := dy * e2z - dz * e2y
  let py := dz * e2x - dx * e2z
  let pz := dx * e2y - dy * e2x
  ((ox - v0.x) * px + (oy - v0.y) * py + (oz - v0.z) * pz) *
    (1 / mtDet dx dy dz v0 v1 v2)

/-- Barycentric v solved by the Moeller-Trumbore test. -/
def mtV (ox oy oz dx dy dz : ℚ) (v0 v1 v2 : Vec3) : ℚ :=
  let e1x := v1.x - v0.x; let e1y := v1.y - v0.y; let e1z := v1.z - v0.z
  let tx := ox - v0.x; let ty := oy - v0.y; let tz := oz - v0.z
  (dx * (ty * e1z - tz * e1y) + dy * (tz * e1x - tx * e1z) +
      dz * (tx * e1y - ty * e1x)) * (1 / mtDet dx dy dz v0 v1 v2)

/-- Hit distance t solved by the Moeller-Trumbore test. -/
def mtT (ox oy oz dx dy dz : ℚ) (v0 v1 v2 : Vec3) : ℚ :=
  let e1x := v1.x - v0.x; let e1y := v1.y - v0.y; let e1z := v1.z - v0.z
  let e2x := v2.x - v0.x; let e2y := v2.y - v0.y; let e2z := v2.z - v0.z
  let tx := ox - v0.x; let ty := oy - v0.y; let tz := oz - v0.z
  (e2x * (ty * e1z - tz * e1y) + e2y * (tz * e1x - tx * e1z) +
      e2z * (tx * e1y - ty * e1x)) * (1 / mtDet dx dy dz v0 v1 v2)

/-- Moeller-Trumbore ray-triangle intersection (double-sided), from
bvh.js.  Returns some hit record on a hit, none on a miss.  The guard
structure follows the source line by line; the shared local values of
the source are the named definitions above, evaluated identically. -/
def rayTriangleIntersect (ox oy oz dx dy dz : ℚ) (v0 v1 v2 : Vec3) :
    Option MTHit :=
  if qAbs (mtDet dx dy dz v0 v1 v2) < RT_EPSILON then none
  else
    let u := mtU ox oy oz dx dy dz v0 v1 v2
    if u < 0 ∨ u > 1 then none
    else
      let v := mtV ox oy oz dx dy dz v0 v1 v2
      if v < 0 ∨ u + v > 1 then none
      else
        let t := mtT ox oy oz dx dy dz v0 v1 v2
        if t < RT_EPSILON then none
        else some ⟨t, u, v⟩

/-- Ray-AABB intersection using the slab method, from bvh.js.  The JS
reciprocals 1/d are infinities for axis-parallel rays; rational division
by zero yields 0 instead, a case no theorem below depends on. -/
def rayAABBIntersect (ox oy oz dx dy dz : ℚ) (bmin bmax : Vec3) : Bool :=
  let invDx := 1 / dx; let invDy := 1 / dy; let invDz := 1 / dz
  let tmin0 := (bmin.x - ox) * invDx
  let tmax0 := (bmax.x - ox) * invDx
  let tmin := if tmin0 > tmax0 then tmax0 else tmin0
  let tmax := if tmin0 > tmax0 then tmin0 else tmax0
  let tymin0 := (bmin.y - oy) * invDy
  let tymax0 := (bmax.y - oy) * invDy
  let tymin := if tymin0 > tymax0 then tymax0 else tymin0
  let tymax := if tymin0 > tymax0 then tymin0 else tymax0
  if tmin > tymax ∨ tymin > tmax then false
  else
    let tmin1 := if tymin > tmin then tymin else tmin
    let tmax1 := if tymax < tmax then tymax else tmax
    let tzmin0 := (bmin.z - oz) * invDz
    let tzmax0 := (bmax.z - oz) * invDz
    let tzmin := if tzmin0 > tzmax0 then tzmax0 else tzmin0
    let tzmax := if tzmin0 > tzmax0 then tzmin0 else tzmax0
    decide (tmin1 ≤ tzmax ∧ tzmin ≤ tmax1)

/-! Environment model, from environment.js and floor.js. -/

def FLOOR_Y : ℚ := 120
def FLOOR_TILE : ℚ := 80
def FLOOR_HALF : ℚ := 6
def FLOOR_Z_OFFSET : ℚ := 100
def floorColor0 : Color := ⟨180, 30, 30⟩
def floorColor1 : Color := ⟨200, 200, 200⟩
def floorMinX : ℚ := -FLOOR_HALF * FLOOR_TILE
def floorMaxX : ℚ := FLOOR_HALF * FLOOR_TILE
def floorMinZ : ℚ := -FLOOR_HALF * FLOOR_TILE + FLOOR_Z_OFFSET
def floorMaxZ : ℚ := FLOOR_HALF * FLOOR_TILE + FLOOR_Z_OFFSET
def floorOffX : ℚ := 0
def floorOffZ : ℚ := FLOOR_Z_OFFSET

/-- Sentinel object index marking environment hits, from environment.js. -/
def ENV_OBJ_IDX : Int := -2

/-- Checkerboard color at a floor hit point: the JS expression
((ix + iz) & 1) selects color1 exactly for odd tile-coordinate sums. -/
def floorCheckerColor (hx hz : ℚ) : Color :=
  let ix : ℤ := Int.floor ((hx - floorOffX) / FLOOR_TILE)
  let iz : ℤ := Int.floor ((hz - floorOffZ) / FLOOR_TILE)
  if (ix + iz).emod 2 = 1 then floorColor1 else floorColor0

/-- Environment hit record, modelling the JS object returned by
envIntersect. -/
structure EnvHit where
  t : ℚ
  color : Color
  nx : ℚ
  ny : ℚ
  nz : ℚ
  reflectivity : ℚ
deriving DecidableEq, Repr

/-- Test a ray against the environment (the finite checkerboard ground
rectangle), from environment.js. -/
def envIntersect (ox oy oz dx dy dz : ℚ) : Option EnvHit :=
  if qAbs dy < RT_EPSILON then none
  else
    let t := (FLOOR_Y - oy) / dy
    if t < RT_EPSILON then none
    else
      let hx := ox + dx * t
      let hz := oz + dz * t
      if hx < floorMinX ∨ hx > floorMaxX ∨ hz < floorMinZ ∨ hz > floorMaxZ then
        none
      else
        some ⟨t, floorCheckerColor hx hz, 0, -1, 0, 0⟩

/-- Test whether a ray hits the environment within maxDist, from
environment.js.  The JS callers pass Infinity for maxDist, modelled by
the top element of WithTop. -/
def envAnyHit (ox oy oz dx dy dz : ℚ) (maxDist : WithTop ℚ) : Bool :=
  if qAbs dy < RT_EPSILON then false
  else
    let t := (FLOOR_Y - oy) / dy
    if t < RT_EPSILON ∨ maxDist < (t : WithTop ℚ) then false
    else
      let hx := ox + dx * t
      let hz := oz + dz * t
      decide (floorMinX ≤ hx ∧ hx ≤ floorMaxX ∧ floorMinZ ≤ hz ∧ hz ≤ floorMaxZ)

/-! BVH construction, from bvh.js. -/

/-- Default vertex used for the out-of-range reads that the mesh
invariant of the source rules out. -/
def v3zero : Vec3 := ⟨0, 0, 0⟩

/-- Vertex lookup, modelling worldVerts[i]. -/
def vAt (verts : List Vec3) (i : ℕ) : Vec3 := verts.getD i v3zero

/-- Triangle lookup, modelling triangles[i]. -/
def triAt (tris : List Tri) (i : ℕ) : Tri := tris.getD i ⟨0, 0, 0⟩

/-- Per-triangle record with original index and centroid, modelling the
triInfos entries built at the top of buildBVH. -/
structure TriInfo where
  idx : ℕ
  cx : ℚ
  cy : ℚ
  cz : ℚ
deriving DecidableEq, Repr, Inhabited

/-- The triInfos array built by buildBVH: original index plus centroid. -/
def triInfos (verts : List Vec3) (tris : List Tri) : List TriInfo :=
  tris.enum.map fun p =>
    let v0 := vAt verts p.2.a
    let v1 := vAt verts p.2.b
    let v2 := vAt verts p.2.c
    ⟨p.1, (v0.x + v1.x + v2.x) / 3, (v0.y + v1.y + v2.y) / 3,
      (v0.z + v1.z + v2.z) / 3⟩

/-- Minimum of a list of rationals.  The source folds with an initial
Infinity; over the nonempty lists that occur the fold below computes the
same value starting from the first element. -/
def qMin : List ℚ → ℚ
  | [] => 0
  | x :: xs => xs.foldl min x

/-- Maximum of a list of rationals, dually to qMin. -/
def qMax : List ℚ → ℚ
  | [] => 0
  | x :: xs => xs.foldl max x

/-- Axis-aligned bounding box. -/
structure Box where
  bmin : Vec3
  bmax : Vec3
deriving DecidableEq, Repr, Inhabited

/-- All vertex positions of a range of triangles, in the order the
computeTriangleAABB loop of the source visits them. -/
def rangePoints (verts : List Vec3) (tris : List Tri) (tis : List TriInfo) :
    List Vec3 :=
  tis.flatMap fun ti =>
    let tri := triAt tris ti.idx
    [vAt verts tri.a, vAt verts tri.b, vAt verts tri.c]

/-- AABB enclosing a range of triangles, from computeTriangleAABB in
bvh.js: componentwise min and max over all the vertices of the range. -/
def computeTriangleAABB (verts : List Vec3) (tris : List Tri)
    (tis : List TriInfo) : Box :=
  let ps := rangePoints verts tris tis
  ⟨⟨qMin (ps.map Vec3.x), qMin (ps.map Vec3.y), qMin (ps.map Vec3.z)⟩,
    ⟨qMax (ps.map Vec3.x), qMax (ps.map Vec3.y), qMax (ps.map Vec3.z)⟩⟩

/-- Recursive shape of the hierarchy built by buildNode.  The source
directly emits a flat node array; the flat array is produced from this
tree by the flatten function below, mirroring the index arithmetic of
nodes.push in the source. -/
inductive BVHTree where
  | leafT : Box → ℕ → BVHTree
  | nodeT : Box → BVHTree → BVHTree → BVHTree
deriving DecidableEq, Repr

/-- Centroid sort key used by buildNode: the centroid coordinate along
the axis of greatest box extent, with ties resolved exactly as the
source conditionals resolve them. -/
def splitKey (box : Box) : TriInfo → ℚ :=
  let dX := box.bmax.x - box.bmin.x
  let dY := box.bmax.y - box.bmin.y
  let dZ := box.bmax.z - box.bmin.z
  if dX ≥ dY ∧ dX ≥ dZ then TriInfo.cx
  else if dY ≥ dZ then TriInfo.cy else TriInfo.cz

/-- Range reordered by ascending centroid along the longest axis of its
box, modelling the slice-sort-writeback of buildNode.  JS sort with a
numeric comparator is stable and ascending; mergeSort matches both. -/
def sortedRange (verts : List Vec3) (tris : List Tri) (tis : List TriInfo) :
    List TriInfo :=
  let box := computeTriangleAABB verts tris tis
  tis.mergeSort fun a b => decide (splitKey box a ≤ splitKey box b)

/-- Recursive construction of buildNode in bvh.js: compute the range
box; one triangle makes a leaf; otherwise reorder the range by centroid
along the longest axis, split at the median index, recurse on the two
halves.  The source never calls buildNode on an empty range; the empty
case is folded into the leaf branch only to keep the recursion
well-founded. -/
def buildNode (verts : List Vec3) (tris : List Tri) (tis : List TriInfo) :
    BVHTree :=
  let box := computeTriangleAABB verts tris tis
  if h1 : tis.length ≤ 1 then
    .leafT box (tis.headD default).idx
  else
    let sorted := sortedRange verts tris tis
    let mid := tis.length / 2
    .nodeT box (buildNode verts tris (sorted.take mid))
      (buildNode verts tris (sorted.drop mid))
termination_by tis.length
decreasing_by
  · simpa [List.length_take, sortedRange, List.length_mergeSort] using by omega
  · simpa [List.length_drop, sortedRange, List.length_mergeSort] using by omega

/-- Number of flat nodes a subtree occupies: every recursive buildNode
call pushes exactly one node. -/
def flatSize : BVHTree → ℕ
  | .leafT _ _ => 1
  | .nodeT _ l r => 1 + flatSize l + flatSize r

/-- Flat BVH node, modelling the JS record with bmin, bmax, left, right
and triIdx fields, where -1 marks an absent child or a non-leaf. -/
structure BVHNode where
  bmin : Vec3
  bmax : Vec3
  left : Int
  right : Int
  triIdx : Int
deriving DecidableEq, Repr, Inhabited

/-- Lay a subtree out flat starting at a given offset.  In the source,
buildNode pushes a placeholder at index nodeIdx = nodes.length, builds
the left child next (at nodeIdx + 1) and the right child after all the
nodes of the left subtree (at nodeIdx + 1 + flatSize left), exactly the
indices recorded here. -/
def flatten (off : ℕ) : BVHTree → List BVHNode
  | .leafT b i => [⟨b.bmin, b.bmax, -1, -1, (i : Int)⟩]
  | .nodeT b l r =>
    ⟨b.bmin, b.bmax, ((off + 1 : ℕ) : Int), ((off + 1 + flatSize l : ℕ) : Int),
        -1⟩ ::
      (flatten (off + 1) l ++ flatten (off + 1 + flatSize l) r)

/-- Build a BVH for a set of triangles, from buildBVH in bvh.js: returns
the flat array of nodes, root at index 0, empty for an empty mesh. -/
def buildBVH (verts : List Vec3) (tris : List Tri) : List BVHNode :=
  if tris.length = 0 then []
  else flatten 0 (buildNode verts tris (triInfos verts tris))

/-- Triangle indices stored in the leaf nodes of a flat BVH, in node
order. -/
def leafTriIdxs (ns : List BVHNode) : List ℕ :=
  ns.filterMap fun nd => if 0 ≤ nd.triIdx then some nd.triIdx.toNat else none

/-- Containment of one box in another, componentwise: the inner minimum
is at least the outer minimum and the inner maximum at most the outer
maximum, on every axis. -/
def boxContains (outer inner : Box) : Prop :=
  outer.bmin.x ≤ inner.bmin.x ∧ outer.bmin.y ≤ inner.bmin.y ∧
    outer.bmin.z ≤ inner.bmin.z ∧ inner.bmax.x ≤ outer.bmax.x ∧
    inner.bmax.y ≤ outer.bmax.y ∧ inner.bmax.z ≤ outer.bmax.z

instance (outer inner : Box) : Decidable (boxContains outer inner) := by
  unfold boxContains
  infer_instance

/-- Box stored at the root of a subtree. -/
def rootBox : BVHTree → Box
  | .leafT b _ => b
  | .nodeT b _ _ => b

/-- Nesting invariant of a hierarchy: at every inner node, the boxes of
both children are contained in the box of the node. -/
def treeNested : BVHTree → Prop
  | .leafT _ _ => True
  | .nodeT b l r =>
    boxContains b (rootBox l) ∧ boxContains b (rootBox r) ∧
      treeNested l ∧ treeNested r

/-- Triangle indices at the leaves of a subtree, left to right. -/
def treeLeaves : BVHTree → List ℕ
  | .leafT _ i => [i]
  | .nodeT _ l r => treeLeaves l ++ treeLeaves r

/-! BVH traversal, from bvh.js.  The source walks the flat node array
with an explicit stack and a per-leaf callback onLeaf; closest-hit mode
always returns false from the callback (visit every reachable leaf) and
any-hit mode returns true on the first qualifying hit (early exit).  The
loop is modelled in two result-equivalent views: visitedLeaves lists the
leaf triangle indices in visit order, over which the two query modes are
folds (an early exit changes neither the existence of a qualifying leaf
nor the closest fold, which never exits early); traceMax (further below)
reports the maximum stack occupancy of the same walk.  The while loop of
the source terminates on built BVHs because child indices exceed parent
indices; fuel makes the Lean model total, and callers pass bvhFuel,
which bounds the iteration count of any run on a built BVH. -/

/-- Leaf triangle indices visited by the bvhTraverse stack walk, in
visit order: pop a node, skip it if the ray misses its box, report it if
it is a leaf, otherwise push both children (left first, so the right
child is popped first, exactly as in the source). -/
def visitedLeaves (ox oy oz dx dy dz : ℚ) (nodes : List BVHNode) :
    ℕ → List ℕ → List ℕ
  | 0, _ => []
  | _ + 1, [] => []
  | fuel + 1, i :: st =>
    match nodes[i]? with
    | none => visitedLeaves ox oy oz dx dy dz nodes fuel st
    | some nd =>
      if rayAABBIntersect ox oy oz dx dy dz nd.bmin nd.bmax = false then
        visitedLeaves ox oy oz dx dy dz nodes fuel st
      else if 0 ≤ nd.triIdx then
        nd.triIdx.toNat :: visitedLeaves ox oy oz dx dy dz nodes fuel st
      else
        visitedLeaves ox oy oz dx dy dz nodes fuel
          (nd.right.toNat :: nd.left.toNat :: st)

/-- Fuel sufficient for any traversal of a built BVH: each iteration
pops one entry, and at most one initial entry plus two entries per inner
node are ever pushed. -/
def bvhFuel (nodes : List BVHNode) : ℕ := 2 * nodes.length + 1

/-- Ray test against the triangle of one leaf, modelling the body of the
onLeaf callbacks in bvhClosestHit and bvhAnyHit. -/
def triHit (ox oy oz dx dy dz : ℚ) (verts : List Vec3) (tris : List Tri)
    (i : ℕ) : Option MTHit :=
  let tri := triAt tris i
  rayTriangleIntersect ox oy oz dx dy dz (vAt verts tri.a) (vAt verts tri.b)
    (vAt verts tri.c)

/-- Result record of bvhClosestHit, modelling the JS object with fields
t, triIdx and hit. -/
structure ClosestHit where
  t : ℚ
  triIdx : ℕ
  hit : MTHit
deriving DecidableEq, Repr

/-- One step of the closest-hit accumulation: test the leaf triangle and
keep it when strictly nearer than the best distance so far.  The best
distance starts at the caller-given maxT, which the JS callers may pass
as Infinity, modelled by the top element of WithTop. -/
def closestStep (ox oy oz dx dy dz : ℚ) (verts : List Vec3) (tris : List Tri)
    (acc : WithTop ℚ × Int × Option MTHit) (i : ℕ) :
    WithTop ℚ × Int × Option MTHit :=
  match triHit ox oy oz dx dy dz verts tris i with
  | some h =>
    if (h.t : WithTop ℚ) < acc.1 then ((h.t : WithTop ℚ), (i : Int), some h)
    else acc
  | none => acc

/-- Closest-hit accumulation over a list of visited leaves: fold the
per-leaf update over the visit order, then package the best hit, exactly
as the callback of bvhClosestHit accumulates bestT, bestTriIdx and
bestHit and the final line returns the record or null.  The source
cannot reach a state with bestTriIdx nonnegative and bestHit null; that
impossible branch is mapped to none. -/
def closestResult (ox oy oz dx dy dz : ℚ) (verts : List Vec3)
    (tris : List Tri) (leaves : List ℕ) (maxT : WithTop ℚ) :
    Option ClosestHit :=
  let r := leaves.foldl (closestStep ox oy oz dx dy dz verts tris)
    (maxT, -1, none)
  if 0 ≤ r.2.1 then
    match r.2.2 with
    | some h => some ⟨h.t, r.2.1.toNat, h⟩
    | none => none
  else none

/-- Closest triangle hit in a BVH, from bvhClosestHit in bvh.js. -/
def bvhClosestHit (ox oy oz dx dy dz : ℚ) (nodes : List BVHNode)
    (verts : List Vec3) (tris : List Tri) (maxT : WithTop ℚ) :
    Option ClosestHit :=
  if nodes.length = 0 then none
  else
    closestResult ox oy oz dx dy dz verts tris
      (visitedLeaves ox oy oz dx dy dz nodes (bvhFuel nodes) [0]) maxT

/-- Any-hit query over a BVH, from bvhAnyHit in bvh.js: true exactly
when some visited leaf triangle is hit strictly within maxT. -/
def bvhAnyHit (ox oy oz dx dy dz : ℚ) (nodes : List BVHNode)
    (verts : List Vec3) (tris : List Tri) (maxT : WithTop ℚ) : Bool :=
  if nodes.length = 0 then false
  else
    (visitedLeaves ox oy oz dx dy dz nodes (bvhFuel nodes) [0]).any fun i =>
      match triHit ox oy oz dx dy dz verts tris i with
      | some h => decide ((h.t : WithTop ℚ) < maxT)
      | none => false

/-- Hit distances of the leaves of a visit list, in visit order; proof
device for relating the two query modes. -/
def hitTs (ox oy oz dx dy dz : ℚ) (verts : List Vec3) (tris : List Tri)
    (L : List ℕ) : List (WithTop ℚ) :=
  L.filterMap fun i =>
    (triHit ox oy oz dx dy dz verts tris i).map fun h => (h.t : WithTop ℚ)

/-- Maximum stack occupancy of the bvhTraverse walk of bvh.js, measured
at the top of each loop iteration; the walk itself is the one that
visitedLeaves performs, including the early exit of an any-hit callback.
An out-of-range pop, which cannot happen on a built BVH, stops the walk. -/
def traceMax (ox oy oz dx dy dz : ℚ) (nodes : List BVHNode)
    (onLeaf : ℕ → Bool) : ℕ → List ℕ → ℕ
  | 0, st => st.length
  | _ + 1, [] => 0
  | fuel + 1, i :: st =>
    let cur := st.length + 1
    match nodes[i]? with
    | none => cur
    | some nd =>
      if rayAABBIntersect ox oy oz dx dy dz nd.bmin nd.bmax = false then
        max cur (traceMax ox oy oz dx dy dz nodes onLeaf fuel st)
      else if 0 ≤ nd.triIdx then
        if onLeaf nd.triIdx.toNat then cur
        else max cur (traceMax ox oy oz dx dy dz nodes onLeaf fuel st)
      else
        max cur (traceMax ox oy oz dx dy dz nodes onLeaf fuel
          (nd.right.toNat :: nd.left.toNat :: st))

/-- Height of a hierarchy, leaves counting 1. -/
def theight : BVHTree → ℕ
  | .leafT _ _ => 1
  | .nodeT _ l r => 1 + max (theight l) (theight r)

/-- The flat array ns holds the flat layout of subtree t at offset i. -/
def subtreeAt (ns : List BVHNode) (i : ℕ) (t : BVHTree) : Prop :=
  ∀ k, k < flatSize t → ns[i + k]? = (flatten i t)[k]?

/-- Height budget discipline of a traversal stack: the subtree on top
fits in budget c, and each deeper entry in one more. -/
def goodStack : ℕ → List BVHTree → Prop
  | _, [] => True
  | c, t :: ts => theight t ≤ c ∧ goodStack (c + 1) ts

/-! Procedural metaball mesh generator, from shader-source.js. -/

/-- Metaball definition: center coordinates and radius, modelling the
JS object with fields x, y, z, radius. -/
structure Ball where
  x : ℚ
  y : ℚ
  z : ℚ
  radius : ℚ
deriving DecidableEq, Repr, Inhabited

/-- Body of the innermost evaluateField loop: the field sum at the grid
point (ix, iy, iz).  The source hoists the pz and py computations into
the outer loops; the values are identical. -/
def fieldValueAt (balls : List Ball) (gridMin : Vec3) (cellSize : ℚ)
    (ix iy iz : ℕ) : ℚ :=
  let pz := gridMin.z + (iz : ℚ) * cellSize
  let py := gridMin.y + (iy : ℚ) * cellSize
  let px := gridMin.x + (ix : ℚ) * cellSize
  balls.foldl (fun val b =>
    let dx := px - b.x
    let dy := py - b.y
    let dz := pz - b.z
    let dist2 := dx * dx + dy * dy + dz * dz
    val + b.radius * b.radius / (dist2 + 1 / 10000)) 0

/-- Scalar field sampled on the grid, from evaluateField in
shader-source.js: a flat list in the (iz, iy, ix) loop nesting of the
source, so the sample for (ix, iy, iz) sits at (iz * n + iy) * n + ix.
The Float32Array of the source stores each sample rounded to single
precision; the model keeps the exact value. -/
def evaluateField (balls : List Ball) (gridMin : Vec3) (cellSize : ℚ)
    (res : ℕ) : List ℚ :=
  let n := res + 1
  (List.range n).flatMap fun iz =>
    (List.range n).flatMap fun iy =>
      (List.range n).map fun ix => fieldValueAt balls gridMin cellSize ix iy iz

/-- Field value with gradient, modelling the JS object returned by
evalFieldAndGradient. -/
structure FieldGrad where
  val : ℚ
  gx : ℚ
  gy : ℚ
  gz : ℚ
deriving DecidableEq, Repr

/-- Field value and gradient in one pass over the balls, from
evalFieldAndGradient in shader-source.js. -/
def evalFieldAndGradient (px py pz : ℚ) (balls : List Ball) : FieldGrad :=
  balls.foldl
    (fun acc b =>
      let dx := px - b.x
      let dy := py - b.y
      let dz := pz - b.z
      let dist2 := dx * dx + dy * dy + dz * dz + 1 / 10000
      let r2 := b.radius * b.radius
      let factor := -2 * r2 / (dist2 * dist2)
      ⟨acc.val + r2 / dist2, acc.gx + factor * dx, acc.gy + factor * dy,
        acc.gz + factor * dz⟩)
    ⟨0, 0, 0, 0⟩

/-- Corner offsets of a unit cell, from CORNER_OFFSETS in
shader-source.js. -/
def CORNER_OFFSETS : List (ℕ × ℕ × ℕ) :=
  [(0, 0, 0), (1, 0, 0), (1, 0, 1), (0, 0, 1),
   (0, 1, 0), (1, 1, 0), (1, 1, 1), (0, 1, 1)]

/-- Corner pairs of the 12 cell edges, from EDGE_CORNERS in
shader-source.js. -/
def EDGE_CORNERS : List (ℕ × ℕ) :=
  [(0, 1), (1, 2), (2, 3), (3, 0),
   (4, 5), (5, 6), (6, 7), (7, 4),
   (0, 4), (1, 5), (2, 6), (3, 7)]

/-- Grid coordinates of corner c of the cell at (ix, iy, iz). -/
def cornerCoord (ix iy iz c : ℕ) : ℕ × ℕ × ℕ :=
  let off := CORNER_OFFSETS.getD c (0, 0, 0)
  (ix + off.1, iy + off.2.1, iz + off.2.2)

/-- Field sample at corner c of a cell, from the cornerVals loop of
processCell. -/
def cornerVal (field : List ℚ) (n ix iy iz c : ℕ) : ℚ :=
  let g := cornerCoord ix iy iz c
  field.getD ((g.2.2 * n + g.2.1) * n + g.1) 0

/-- World position of corner c of a cell, from the cornerPos loop of
processCell. -/
def cornerPos (gridMin : Vec3) (cellSize : ℚ) (ix iy iz c : ℕ) : Vec3 :=
  let g := cornerCoord ix iy iz c
  ⟨gridMin.x + (g.1 : ℚ) * cellSize, gridMin.y + (g.2.1 : ℚ) * cellSize,
    gridMin.z + (g.2.2 : ℚ) * cellSize⟩

/-- Eight-bit corner-sign code of a cell: bit c is set when the sample
at corner c is at least the threshold, from the cubeIndex loop of
processCell. -/
def cubeIndexOf (field : List ℚ) (n : ℕ) (threshold : ℚ)
    (ix iy iz : ℕ) : ℕ :=
  (List.range 8).foldl
    (fun idx c =>
      if threshold ≤ cornerVal field n ix iy iz c then idx + 2 ^ c else idx) 0

/-- Interpolated crossing point along an edge, from mcInterpolate in
shader-source.js, with the three degenerate guards returning an
endpoint. -/
def mcInterpolate (p1 p2 : Vec3) (v1 v2 threshold : ℚ) : Vec3 :=
  if qAbs (v1 - threshold) < 1 / 100000 then p1
  else if qAbs (v2 - threshold) < 1 / 100000 then p2
  else if qAbs (v1 - v2) < 1 / 100000 then p1
  else
    let mu := (threshold - v1) / (v2 - v1)
    ⟨p1.x + mu * (p2.x - p1.x), p1.y + mu * (p2.y - p1.y),
      p1.z + mu * (p2.z - p1.z)⟩

/-- Accumulated marching-cubes output: the vertex list, the triangle
list, and the edge-key deduplication map, which the source keeps in a JS
Map and is modelled as an association list with unique keys (a key is
inserted only when absent, so lookup agrees with Map.get). -/
structure MCState where
  vertices : List Vec3
  triangles : List Tri
  edgeMap : List (ℕ × ℕ)
deriving DecidableEq, Repr, Inhabited

/-- Stable deduplication key of a grid edge, from the key computation of
processCell: the two flat grid-corner indices in ascending order. -/
def edgeKey (n a b : ℕ) : ℕ :=
  if a < b then a * (n * n * n) + b else b * (n * n * n) + a

/-- Vertex index for edge e of a crossing list, with 0 for the
impossible absent case (the triangle table only names crossed edges). -/
def evLookup (ev : List (ℕ × ℕ)) (t : Int) : ℕ :=
  (ev.lookup t.toNat).getD 0

/-- Triangles emitted for one cell, from the triList loop of
processCell: consume edge indices three at a time until the -1
sentinel. -/
def emitTris (ev : List (ℕ × ℕ)) : List Int → List Tri
  | t0 :: t1 :: t2 :: rest =>
    if t0 = -1 then []
    else ⟨evLookup ev t0, evLookup ev t1, evLookup ev t2⟩ :: emitTris ev rest
  | _ => []

/-- Classify one grid cell, from processCell in shader-source.js: build
the corner-sign code, look up the crossed edges, compute or reuse the
interpolated vertex of each crossed edge, and emit the triangles of the
case table.  The 256-entry EDGE_TABLE and TRI_TABLE constants of the
source are data parameters here; no claim depends on their contents. -/
def processCell (edgeTable : List ℕ) (triTable : List (List Int))
    (field : List ℚ) (n : ℕ) (gridMin : Vec3) (cellSize threshold : ℚ)
    (ix iy iz : ℕ) (st : MCState) : MCState :=
  let cubeIndex := cubeIndexOf field n threshold ix iy iz
  let edges := edgeTable.getD cubeIndex 0
  if edges = 0 then st
  else
    let r := (List.range 12).foldl
      (fun (acc : List (ℕ × ℕ) × List Vec3 × List (ℕ × ℕ)) e =>
        if edges.testBit e then
          let c := EDGE_CORNERS.getD e (0, 0)
          let g1 := cornerCoord ix iy iz c.1
          let g2 := cornerCoord ix iy iz c.2
          let a := (g1.2.2 * n + g1.2.1) * n + g1.1
          let b := (g2.2.2 * n + g2.2.1) * n + g2.1
          let key := edgeKey n a b
          match acc.2.2.lookup key with
          | some idx => ((e, idx) :: acc.1, acc.2.1, acc.2.2)
          | none =>
            let pos := mcInterpolate (cornerPos gridMin cellSize ix iy iz c.1)
              (cornerPos gridMin cellSize ix iy iz c.2)
              (cornerVal field n ix iy iz c.1) (cornerVal field n ix iy iz c.2)
              threshold
            let idx := acc.2.1.length
            ((e, idx) :: acc.1, acc.2.1 ++ [pos], (key, idx) :: acc.2.2)
        else acc)
      ([], st.vertices, st.edgeMap)
    let triList := triTable.getD cubeIndex []
    ⟨r.2.1, st.triangles ++ emitTris r.1 triList, r.2.2⟩

/-- Isosurface extraction, from marchingCubes in shader-source.js: visit
every cell in the (iz, iy, ix) loop nesting of the source, threading the
accumulated mesh state. -/
def marchingCubes (edgeTable : List ℕ) (triTable : List (List Int))
    (field : List ℚ) (res : ℕ) (gridMin : Vec3) (cellSize threshold : ℚ) :
    MCState :=
  let n := res + 1
  (List.range res).foldl
    (fun st iz =>
      (List.range res).foldl
        (fun st iy =>
          (List.range res).foldl
            (fun st ix =>
              processCell edgeTable triTable field n gridMin cellSize threshold
                ix iy iz st)
            st)
        st)
    ⟨[], [], []⟩

/-- Topological neighbors of vertex i, from the adjacency build of
smoothMesh: for every triangle containing i, its two other corners, with
JS Set semantics modelled by dedup (first occurrence kept; sums and
counts over the set do not depend on order). -/
def neighborsOf (tris : List Tri) (i : ℕ) : List ℕ :=
  (tris.flatMap fun t =>
    (if t.a = i then [t.b, t.c] else []) ++
      (if t.b = i then [t.a, t.c] else []) ++
      (if t.c = i then [t.a, t.b] else [])).dedup

/-- One Laplacian relaxation sweep of smoothMesh: each vertex moves 50
percent toward the average of its neighbors.  The source updates the
vertex array in place while scanning indices in order, so later vertices
see already-relaxed neighbors; the fold over set makes that explicit. -/
def laplacianPass (tris : List Tri) (vs : List Vec3) : List Vec3 :=
  (List.range vs.length).foldl
    (fun acc i =>
      let nbrs := neighborsOf tris i
      if nbrs.length = 0 then acc
      else
        let s := nbrs.foldl
          (fun (p : ℚ × ℚ × ℚ) ni =>
            let q := acc.getD ni v3zero
            (p.1 + q.x, p.2.1 + q.y, p.2.2 + q.z))
          (0, 0, 0)
        let nn : ℚ := nbrs.length
        let v := acc.getD i v3zero
        acc.set i ⟨v.x * (1 / 2) + s.1 / nn * (1 / 2),
          v.y * (1 / 2) + s.2.1 / nn * (1 / 2),
          v.z * (1 / 2) + s.2.2 / nn * (1 / 2)⟩)
    vs

/-- One isosurface reprojection sweep of smoothMesh: a Newton step along
the analytic gradient, skipped where the gradient is near zero. -/
def projectPass (balls : List Ball) (threshold : ℚ) (vs : List Vec3) :
    List Vec3 :=
  (List.range vs.length).foldl
    (fun acc i =>
      let p := acc.getD i v3zero
      let fg := evalFieldAndGradient p.x p.y p.z balls
      let gmag2 := fg.gx * fg.gx + fg.gy * fg.gy + fg.gz * fg.gz
      if gmag2 < 1 / 10000000000 then acc
      else
        let step := (fg.val - threshold) / gmag2
        acc.set i ⟨p.x - fg.gx * step, p.y - fg.gy * step,
          p.z - fg.gz * step⟩)
    vs

/-- The iteration loop of smoothMesh: relaxation then reprojection, a
given number of times. -/
def smoothIter (tris : List Tri) (balls : List Ball) (threshold : ℚ) :
    ℕ → List Vec3 → List Vec3
  | 0, vs => vs
  | k + 1, vs =>
    smoothIter tris balls threshold k
      (projectPass balls threshold (laplacianPass tris vs))

/-- Laplacian smooth plus isosurface projection, from smoothMesh in
shader-source.js.  The source mutates the vertices array of the mesh in
place and never touches the triangles array; the model returns the new
vertices together with the untouched triangles to make that frame
explicit. -/
def smoothMesh (vs : List Vec3) (tris : List Tri) (balls : List Ball)
    (threshold : ℚ) (iterations : ℕ) : List Vec3 × List Tri :=
  (smoothIter tris balls threshold iterations vs, tris)

/-- Smooth vertex normals from the analytic field gradient, from
computeMetaballNormals in shader-source.js; the JS fallback
Math.sqrt(...) or 1 on a zero length is the explicit test here.  The
square root is an abstract parameter sq: the model is exact over
rationals and no claim depends on its values. -/
def computeMetaballNormals (sq : ℚ → ℚ) (vs : List Vec3)
    (balls : List Ball) : List Vec3 :=
  vs.map fun p =>
    let fg := evalFieldAndGradient p.x p.y p.z balls
    let len0 := sq (fg.gx * fg.gx + fg.gy * fg.gy + fg.gz * fg.gz)
    let len := if len0 = 0 then 1 else len0
    ⟨-fg.gx / len, -fg.gy / len, -fg.gz / len⟩

/-- Generated mesh, modelling the JS result object.  The normals field
is optional because the source attaches it only on the non-empty path;
the mesh contract of the spec expects it always. -/
structure Mesh where
  vertices : List Vec3
  triangles : List Tri
  normals : Option (List Vec3)
deriving DecidableEq, Repr

/-- Metaball mesh generation, from generateMetaballMesh in
shader-source.js: the empty-ball early return, the padded cubic
bounding region, field sampling, marching cubes, two smoothing
iterations and analytic normals. -/
def generateMetaballMesh (edgeTable : List ℕ) (triTable : List (List Int))
    (sq : ℚ → ℚ) (balls : List Ball) (res : ℕ) (threshold : ℚ) : Mesh :=
  if balls.length = 0 then ⟨[⟨0, 0, 0⟩], [], none⟩
  else
    let padding : ℚ := 3 / 2
    let minX := qMin (balls.map fun b => b.x - b.radius * padding)
    let minY := qMin (balls.map fun b => b.y - b.radius * padding)
    let minZ := qMin (balls.map fun b => b.z - b.radius * padding)
    let maxX := qMax (balls.map fun b => b.x + b.radius * padding)
    let maxY := qMax (balls.map fun b => b.y + b.radius * padding)
    let maxZ := qMax (balls.map fun b => b.z + b.radius * padding)
    let span := max (maxX - minX) (max (maxY - minY) (maxZ - minZ))
    let cx := (minX + maxX) * (1 / 2)
    let cy := (minY + maxY) * (1 / 2)
    let cz := (minZ + maxZ) * (1 / 2)
    let half := span * (1 / 2)
    let gridMin : Vec3 := ⟨cx - half, cy - half, cz - half⟩
    let cellSize := span / (res : ℚ)
    let field := evaluateField balls gridMin cellSize res
    let mc := marchingCubes edgeTable triTable field res gridMin cellSize
      threshold
    let sm := smoothMesh mc.vertices mc.triangles balls threshold 2
    ⟨sm.1, sm.2, some (computeMetaballNormals sq sm.1 balls)⟩

/-! Per-sample shading model, from raytrace.js and primitives.js.  The
mutable global _shadowSeed is threaded as explicit state, extended with
a log of every produced random value: the log materializes the jitter
sequence the determinism claim speaks about.  The square root of
Math.sqrt is an abstract parameter sq (rationals have no exact square
root; no claim depends on its values), and the loaded sky image of
envColor is an abstract pure lookup.  JS evaluates the LCG product in
double precision, rounding above 2^53; the model keeps the algebraic
LCG, which affects values but not determinism. -/

/-- One step of the linear congruential generator of raytrace.js, glibc
constants, masked to 31 bits. -/
def lcgNext (s : ℕ) : ℕ := (s * 1103515245 + 12345) &&& 0x7fffffff

/-- PRNG state: the current seed plus the log of produced values. -/
structure RState where
  seed : ℕ
  log : List ℚ
deriving DecidableEq, Repr

/-- The fastRand of raytrace.js: advance the seed, return seed divided
by 0x7fffffff, and record the value in the log. -/
def fastRand (st : RState) : ℚ × RState :=
  let s := lcgNext st.seed
  let out : ℚ := (s : ℚ) / 0x7fffffff
  (out, ⟨s, st.log ++ [out]⟩)

/-- The normalize of primitives.js, with the zero-length guard returning
the zero vector. -/
def vnormalize (sq : ℚ → ℚ) (x y z : ℚ) : Vec3 :=
  let len := sq (x * x + y * y + z * z)
  if len = 0 then ⟨0, 0, 0⟩ else ⟨x / len, y / len, z / len⟩

/-- The lightDir constant of primitives.js. -/
def lightDir (sq : ℚ → ℚ) : Vec3 := vnormalize sq (-(1 / 2)) (-(1 / 2)) (-1)

/-- World-space scene instance consumed by the tracer, modelling the
object records built by transformMesh. -/
structure SceneObj where
  worldVerts : List Vec3
  triangles : List Tri
  colors : List Color
  worldVertexNormals : Option (List Vec3)
  worldFaceNormals : Option (List Vec3)
  bvhNodes : List BVHNode
  reflectivity : ℚ

/-- Occlusion test against every object but skipObj, then the
environment, from sceneAnyHit in raytrace.js; the early return of the
source loop is result-equivalent to the disjunction. -/
def sceneAnyHit (ox oy oz dx dy dz : ℚ) (scene : List SceneObj)
    (maxDist : WithTop ℚ) (skipObj : Int) : Bool :=
  (scene.enum.any fun p =>
    if (p.1 : Int) = skipObj then false
    else bvhAnyHit ox oy oz dx dy dz p.2.bvhNodes p.2.worldVerts p.2.triangles
      maxDist) ||
    (if skipObj ≠ ENV_OBJ_IDX then envAnyHit ox oy oz dx dy dz maxDist
     else false)

/-- The shadow sample loop of shadowTest: per sample, three jitter draws
around the light direction and one any-hit query with infinite range. -/
def shadowSamples (sq : ℚ → ℚ) (ox oy oz : ℚ) (scene : List SceneObj)
    (origObjIdx : Int) : ℕ → RState → ℕ × RState
  | 0, st => (0, st)
  | k + 1, st =>
    let r1 := fastRand st
    let r2 := fastRand r1.2
    let r3 := fastRand r2.2
    let jx := (r1.1 - 1 / 2) * RT_LIGHT_RADIUS
    let jy := (r2.1 - 1 / 2) * RT_LIGHT_RADIUS
    let jz := (r3.1 - 1 / 2) * RT_LIGHT_RADIUS
    let sdx := (lightDir sq).x + jx
    let sdy := (lightDir sq).y + jy
    let sdz := (lightDir sq).z + jz
    let hit := sceneAnyHit ox oy oz sdx sdy sdz scene ⊤ origObjIdx
    let rest := shadowSamples sq ox oy oz scene origObjIdx k r3.2
    ((if hit then 1 else 0) + rest.1, rest.2)

/-- Soft shadow fraction, from shadowTest in raytrace.js. -/
def shadowTest (sq : ℚ → ℚ) (ox oy oz : ℚ) (scene : List SceneObj)
    (origObjIdx : Int) (st : RState) : ℚ × RState :=
  let r := shadowSamples sq ox oy oz scene origObjIdx RT_SHADOW_SAMPLES st
  ((r.1 : ℚ) / (RT_SHADOW_SAMPLES : ℚ), r.2)

/-- Random hemisphere direction, from sampleHemisphere in raytrace.js:
three draws, a short-vector rejection, normalization and a flip onto the
normal side. -/
def sampleHemisphere (sq : ℚ → ℚ) (nx ny nz : ℚ) (st : RState) :
    Option Vec3 × RState :=
  let r1 := fastRand st
  let r2 := fastRand r1.2
  let r3 := fastRand r2.2
  let rx := r1.1 * 2 - 1
  let ry := r2.1 * 2 - 1
  let rz := r3.1 * 2 - 1
  let rlen := sq (rx * rx + ry * ry + rz * rz)
  if rlen < 1 / 100 then (none, r3.2)
  else
    let d := vnormalize sq rx ry rz
    if d.x * nx + d.y * ny + d.z * nz < 0 then
      (some ⟨-d.x, -d.y, -d.z⟩, r3.2)
    else (some d, r3.2)

/-- The ambient-occlusion sample loop of aoTest: rejected directions are
skipped without counting, occluders are sought within the AO radius. -/
def aoSamples (sq : ℚ → ℚ) (ox oy oz nx ny nz : ℚ) (scene : List SceneObj)
    (origObjIdx : Int) : ℕ → RState → ℕ × RState
  | 0, st => (0, st)
  | k + 1, st =>
    let d := sampleHemisphere sq nx ny nz st
    match d.1 with
    | none => aoSamples sq ox oy oz nx ny nz scene origObjIdx k d.2
    | some dir =>
      let hit := sceneAnyHit ox oy oz dir.x dir.y dir.z scene
        ((RT_AO_RADIUS : ℚ) : WithTop ℚ) origObjIdx
      let rest := aoSamples sq ox oy oz nx ny nz scene origObjIdx k d.2
      ((if hit then 1 else 0) + rest.1, rest.2)

/-- Ambient occlusion fraction, from aoTest in raytrace.js. -/
def aoTest (sq : ℚ → ℚ) (ox oy oz nx ny nz : ℚ) (scene : List SceneObj)
    (origObjIdx : Int) (st : RState) : ℚ × RState :=
  let r := aoSamples sq ox oy oz nx ny nz scene origObjIdx RT_AO_SAMPLES st
  ((r.1 : ℚ) / (RT_AO_SAMPLES : ℚ), r.2)

/-- Shading normal at a hit, from interpolateNormal in raytrace.js:
barycentric blend of vertex normals when present, else the face normal
of the triangle. -/
def interpolateNormal (sq : ℚ → ℚ) (tri : Tri) (hit : MTHit)
    (wvn wfn : Option (List Vec3)) (triIdx : ℕ) : Vec3 :=
  match wvn with
  | some ns =>
    let n0 := ns.getD tri.a v3zero
    let n1 := ns.getD tri.b v3zero
    let n2 := ns.getD tri.c v3zero
    let w := 1 - hit.u - hit.v
    vnormalize sq (w * n0.x + hit.u * n1.x + hit.v * n2.x)
      (w * n0.y + hit.u * n1.y + hit.v * n2.y)
      (w * n0.z + hit.u * n1.z + hit.v * n2.z)
  | none => (wfn.getD []).getD triIdx v3zero

/-- Hit record of sceneIntersect, modelling the JS result object. -/
structure SceneHit where
  t : ℚ
  color : Color
  nx : ℚ
  ny : ℚ
  nz : ℚ
  objIdx : Int
  reflectivity : ℚ

/-- Closest intersection of a ray with scene and environment, from
sceneIntersect in raytrace.js: fold over the objects tightening the
closest distance, resolve and flip the shading normal, then test the
environment unless it is the skipped object. -/
def sceneIntersect (sq : ℚ → ℚ) (ox oy oz dx dy dz : ℚ)
    (scene : List SceneObj) (skipObj : Int) : Option SceneHit :=
  let objPhase := scene.enum.foldl
    (fun (acc : WithTop ℚ × Option SceneHit) p =>
      if (p.1 : Int) = skipObj then acc
      else
        match bvhClosestHit ox oy oz dx dy dz p.2.bvhNodes p.2.worldVerts
          p.2.triangles acc.1 with
        | none => acc
        | some objHit =>
          let n0 := interpolateNormal sq (triAt p.2.triangles objHit.triIdx)
            objHit.hit p.2.worldVertexNormals p.2.worldFaceNormals
            objHit.triIdx
          let n : Vec3 :=
            if n0.x * dx + n0.y * dy + n0.z * dz > 0 then
              ⟨-n0.x, -n0.y, -n0.z⟩
            else n0
          ((objHit.t : WithTop ℚ),
            some ⟨objHit.t, p.2.colors.getD objHit.triIdx ⟨0, 0, 0⟩, n.x, n.y,
              n.z, (p.1 : Int), p.2.reflectivity⟩))
    (⊤, none)
  if skipObj ≠ ENV_OBJ_IDX then
    match envIntersect ox oy oz dx dy dz with
    | some eh =>
      if (eh.t : WithTop ℚ) < objPhase.1 then
        some ⟨eh.t, eh.color, eh.nx, eh.ny, eh.nz, ENV_OBJ_IDX,
          eh.reflectivity⟩
      else objPhase.2
    | none => objPhase.2
  else objPhase.2

/-- Miss color, from envColor in environment.js: the vertical gradient
fallback, or the loaded sky image modelled as an abstract pure lookup. -/
def envColor (sky : Option (ℚ → ℚ → ℚ → Color)) (dx dy dz : ℚ) : Color :=
  match sky with
  | none =>
    let t := max 0 (min 1 (-dy * (3 / 2) + 1 / 2))
    let v := 80 + t * 175
    ⟨v, v, v⟩
  | some f => f dx dy dz

/-- The recursive shading function, from traceRay in raytrace.js:
closest hit or miss color, shadow-bias offset, soft shadow, ambient
occlusion, diffuse and Blinn-Phong specular, Schlick-Fresnel-weighted
recursive reflection, and the final clamp to 255. -/
def traceRay (sq : ℚ → ℚ) (sky : Option (ℚ → ℚ → ℚ → Color))
    (scene : List SceneObj) (ox oy oz dx dy dz : ℚ) (depth : ℕ)
    (skipObj : Int) (st : RState) : Color × RState :=
  match sceneIntersect sq ox oy oz dx dy dz scene skipObj with
  | none => (envColor sky dx dy dz, st)
  | some hit =>
    let hx := ox + dx * hit.t + hit.nx * RT_SHADOW_BIAS
    let hy := oy + dy * hit.t + hit.ny * RT_SHADOW_BIAS
    let hz := oz + dz * hit.t + hit.nz * RT_SHADOW_BIAS
    let sh := shadowTest sq hx hy hz scene hit.objIdx st
    let ao := aoTest sq hx hy hz hit.nx hit.ny hit.nz scene hit.objIdx sh.2
    let ndotl := hit.nx * (lightDir sq).x + hit.ny * (lightDir sq).y +
      hit.nz * (lightDir sq).z
    let lit := 1 - sh.1
    let diffuse := lit * max 0 ndotl
    let aoFactor := 1 - ao.1 * RT_AO_STRENGTH
    let specular : ℚ :=
      if lit > 0 ∧ ndotl > 0 then
        let hvx := -dx + (lightDir sq).x
        let hvy := -dy + (lightDir sq).y
        let hvz := -dz + (lightDir sq).z
        let hlen := sq (hvx * hvx + hvy * hvy + hvz * hvz)
        if hlen > 0 then
          let ndoth := hit.nx * (hvx / hlen) + hit.ny * (hvy / hlen) +
            hit.nz * (hvz / hlen)
          if ndoth > 0 then lit * RT_SPECULAR_STR * ndoth ^ RT_SPECULAR_EXP
          else 0
        else 0
      else 0
    let br := min 1 (ambient * aoFactor + diffuse)
    let r0 := hit.color.r * br + specular * 255
    let g0 := hit.color.g * br + specular * 255
    let b0 := hit.color.bl * br + specular * 255
    let mixed : (ℚ × ℚ × ℚ) × RState :=
      if h : 0 < depth ∧ 0 < hit.reflectivity then
        let ddn := dx * hit.nx + dy * hit.ny + dz * hit.nz
        if ddn < 0 then
          let cosTheta := -ddn
          let f1 := 1 - cosTheta
          let f2 := f1 * f1
          let refl := hit.reflectivity + (1 - hit.reflectivity) * f2 * f2 * f1
          let rx := dx - 2 * ddn * hit.nx
          let ry := dy - 2 * ddn * hit.ny
          let rz := dz - 2 * ddn * hit.nz
          let ref := traceRay sq sky scene hx hy hz rx ry rz (depth - 1)
            hit.objIdx ao.2
          ((r0 * (1 - refl) + ref.1.r * refl, g0 * (1 - refl) + ref.1.g * refl,
            b0 * (1 - refl) + ref.1.bl * refl), ref.2)
        else ((r0, g0, b0), ao.2)
      else ((r0, g0, b0), ao.2)
    (⟨min 255 mixed.1.1, min 255 mixed.1.2.1, min 255 mixed.1.2.2⟩, mixed.2)
termination_by depth
decreasing_by
  omega

/-- Seed assignment of the per-sample loop in raytraceScene: a pure
function of the pixel and sub-sample coordinates. -/
def seedFor (px py ax ay : ℕ) : ℕ :=
  (py * RT_AA_GRID + ay) * WIDTH * RT_AA_GRID + (px * RT_AA_GRID + ax)

/-- One sub-sample of raytraceScene in raytrace.js: overwrite the PRNG
seed with the coordinate-determined value (discarding whatever seed the
previous sample left behind, here the ignored incomingSeed argument),
build the camera ray and trace it.  The returned state carries the final
seed and the full jitter log of the sample. -/
def renderSample (sq : ℚ → ℚ) (sky : Option (ℚ → ℚ → ℚ → Color))
    (scene : List SceneObj) (px py ax ay : ℕ) (_incomingSeed : ℕ) :
    Color × RState :=
  let aaStep : ℚ := 1 / (RT_AA_GRID : ℚ)
  let spx := (px : ℚ) + ((ax : ℚ) + 1 / 2) * aaStep - 1 / 2
  let spy := (py : ℚ) + ((ay : ℚ) + 1 / 2) * aaStep - 1 / 2
  let rdx := spx - (WIDTH : ℚ) * (1 / 2)
  let rdy := spy - (HEIGHT : ℚ) * (1 / 2)
  let len := sq (rdx * rdx + rdy * rdy + fov * fov)
  let dx := rdx / len
  let dy := rdy / len
  let dz := fov / len
  traceRay sq sky scene 0 0 camZ dx dy dz RT_MAX_BOUNCES (-1)
    ⟨seedFor px py ax ay, []⟩

/-! Concrete scenes used by the witness theorems: two disjoint triangles
crossed by the ray from the origin in direction (1,1,1) at distances 5
and 15, and the one-triangle scene consisting of the first of them. -/

def demoVerts : List Vec3 :=
  [⟨7, 4, 4⟩, ⟨4, 7, 4⟩, ⟨4, 4, 7⟩, ⟨17, 14, 14⟩, ⟨14, 17, 14⟩, ⟨14, 14, 17⟩]
def demoTris : List Tri := [⟨0, 1, 2⟩, ⟨3, 4, 5⟩]
def demoVerts1 : List Vec3 := [⟨7, 4, 4⟩, ⟨4, 7, 4⟩, ⟨4, 4, 7⟩]
def demoTris1 : List Tri := [⟨0, 1, 2⟩]

/-! Theorems for claims C6 and C7. -/

theorem qAbs_eq_abs (q : ℚ) : qAbs q = |q| := by
  unfold qAbs
  split_ifs with h
  · exact (abs_of_neg h).symm
  · exact (abs_of_nonneg (not_lt.mp h)).symm

/-- Claim C6: rayTriangleIntersect is total and degenerate cases are
misses, never errors: for every ray and triangle it returns either none
or a hit record; it returns none whenever the determinant is smaller
than epsilon in magnitude, whenever u or v lies outside the barycentric
simplex, and whenever t falls below epsilon; and any returned hit
satisfies 0 ≤ u, 0 ≤ v, u + v ≤ 1 and t ≥ epsilon. -/
theorem C6_ray_triangle_total (ox oy oz dx dy dz : ℚ) (v0 v1 v2 : Vec3) :
    (∀ h : MTHit, rayTriangleIntersect ox oy oz dx dy dz v0 v1 v2 = some h →
      0 ≤ h.u ∧ 0 ≤ h.v ∧ h.u + h.v ≤ 1 ∧ RT_EPSILON ≤ h.t) ∧
    (qAbs (mtDet dx dy dz v0 v1 v2) < RT_EPSILON →
      rayTriangleIntersect ox oy oz dx dy dz v0 v1 v2 = none) ∧
    (RT_EPSILON ≤ qAbs (mtDet dx dy dz v0 v1 v2) →
      (mtU ox oy oz dx dy dz v0 v1 v2 < 0 ∨ 1 < mtU ox oy oz dx dy dz v0 v1 v2) →
      rayTriangleIntersect ox oy oz dx dy dz v0 v1 v2 = none) ∧
    (RT_EPSILON ≤ qAbs (mtDet dx dy dz v0 v1 v2) →
      (mtV ox oy oz dx dy dz v0 v1 v2 < 0 ∨
        1 < mtU ox oy oz dx dy dz v0 v1 v2 + mtV ox oy oz dx dy dz v0 v1 v2) →
      rayTriangleIntersect ox oy oz dx dy dz v0 v1 v2 = none) ∧
    (RT_EPSILON ≤ qAbs (mtDet dx dy dz v0 v1 v2) →
      mtT ox oy oz dx dy dz v0 v1 v2 < RT_EPSILON →
      rayTriangleIntersect ox oy oz dx dy dz v0 v1 v2 = none) := by
  have e : rayTriangleIntersect ox oy oz dx dy dz v0 v1 v2 =
      (if qAbs (mtDet dx dy dz v0 v1 v2) < RT_EPSILON then none
       else if mtU ox oy oz dx dy dz v0 v1 v2 < 0 ∨
           mtU ox oy oz dx dy dz v0 v1 v2 > 1 then none
       else if mtV ox oy oz dx dy dz v0 v1 v2 < 0 ∨
           mtU ox oy oz dx dy dz v0 v1 v2 + mtV ox oy oz dx dy dz v0 v1 v2 > 1
         then none
       else if mtT ox oy oz dx dy dz v0 v1 v2 < RT_EPSILON then none
       else some ⟨mtT ox oy oz dx dy dz v0 v1 v2, mtU ox oy oz dx dy dz v0 v1 v2,
         mtV ox oy oz dx dy dz v0 v1 v2⟩) := rfl
  rw [e]
  split_ifs with h1 h2 h3 h4
  · exact ⟨by simp, fun _ => rfl, fun _ _ => rfl, fun _ _ => rfl, fun _ _ => rfl⟩
  · exact ⟨by simp, fun hc => absurd hc h1, fun _ _ => rfl, fun _ _ => rfl,
      fun _ _ => rfl⟩
  · exact ⟨by simp, fun hc => absurd hc h1, fun _ _ => rfl, fun _ _ => rfl,
      fun _ _ => rfl⟩
  · exact ⟨by simp, fun hc => absurd hc h1, fun _ _ => rfl, fun _ _ => rfl,
      fun _ _ => rfl⟩
  · push_neg at h2 h3
    refine ⟨?_, ?_, ?_, ?_, ?_⟩
    · intro h hh
      injection hh with hh
      subst hh
      exact ⟨h2.1, h3.1, not_lt.mp (not_lt.2 h3.2), not_lt.mp h4⟩
    · intro hc; exact absurd hc h1
    · intro _ hu
      rcases hu with hu | hu
      · exact absurd hu (not_lt.2 h2.1)
      · exact absurd hu (not_lt.2 h2.2)
    · intro _ hv
      rcases hv with hv | hv
      · exact absurd hv (not_lt.2 h3.1)
      · exact absurd hv (not_lt.2 h3.2)
    · intro _ ht; exact absurd ht h4

/-- Witness for claim C6: a concrete ray and triangle whose hit record
satisfies the barycentric and distance bounds. -/
theorem C6_ray_triangle_total_witness :
    0 ≤ (⟨5, 1/3, 1/3⟩ : MTHit).u ∧ 0 ≤ (⟨5, 1/3, 1/3⟩ : MTHit).v ∧
      (⟨5, 1/3, 1/3⟩ : MTHit).u + (⟨5, 1/3, 1/3⟩ : MTHit).v ≤ 1 ∧
      RT_EPSILON ≤ (⟨5, 1/3, 1/3⟩ : MTHit).t :=
  (C6_ray_triangle_total 0 0 0 1 1 1 ⟨7, 4, 4⟩ ⟨4, 7, 4⟩ ⟨4, 4, 7⟩).1
    ⟨5, 1/3, 1/3⟩ (by with_unfolding_all decide)

/-- Counterexample for claim C7: a ray that meets the ground plane well
in front of the origin, with the direction far from parallel, but whose
hit point lies outside the finite floor rectangle; envIntersect reports
a miss there, so the environment plane is not infinite in extent. -/
theorem C7_counterexample :
    RT_EPSILON ≤ qAbs 1 ∧ RT_EPSILON ≤ (FLOOR_Y - 0) / 1 ∧
      envIntersect 1000 0 0 0 1 0 = none := by with_unfolding_all decide

/-- Claim C7 (amended): for every ray whose direction is not parallel to
the plane, whose plane intersection lies in front of the origin, and
whose hit point falls inside the finite floor rectangle, envIntersect
returns the checkerboard hit with normal (0, -1, 0) and reflectivity 0. -/
theorem C7_floor_hit (ox oy oz dx dy dz : ℚ)
    (h1 : RT_EPSILON ≤ qAbs dy)
    (h2 : RT_EPSILON ≤ (FLOOR_Y - oy) / dy)
    (h3 : floorMinX ≤ ox + dx * ((FLOOR_Y - oy) / dy))
    (h4 : ox + dx * ((FLOOR_Y - oy) / dy) ≤ floorMaxX)
    (h5 : floorMinZ ≤ oz + dz * ((FLOOR_Y - oy) / dy))
    (h6 : oz + dz * ((FLOOR_Y - oy) / dy) ≤ floorMaxZ) :
    envIntersect ox oy oz dx dy dz =
      some ⟨(FLOOR_Y - oy) / dy,
        floorCheckerColor (ox + dx * ((FLOOR_Y - oy) / dy))
          (oz + dz * ((FLOOR_Y - oy) / dy)), 0, -1, 0, 0⟩ := by
  simp only [envIntersect]
  rw [if_neg (not_lt.2 h1), if_neg (not_lt.2 h2), if_neg]
  push_neg
  exact ⟨h3, h4, h5, h6⟩

/-- Witness for claim C7 (amended): a straight-down ray from the origin
hits the first tile of the floor at distance 120. -/
theorem C7_floor_hit_witness :
    envIntersect 0 0 0 0 1 0 = some ⟨120, floorColor0, 0, -1, 0, 0⟩ :=
  (C7_floor_hit 0 0 0 0 1 0 (by with_unfolding_all decide) (by with_unfolding_all decide) (by with_unfolding_all decide) (by with_unfolding_all decide)
    (by with_unfolding_all decide) (by with_unfolding_all decide)).trans (by with_unfolding_all decide)

/-! Theorems for claim C1: the BVH partitions the triangle index set. -/

theorem leafTriIdxs_flatten (t : BVHTree) : ∀ off,
    leafTriIdxs (flatten off t) = treeLeaves t := by
  induction t with
  | leafT b i =>
    intro off
    simp [leafTriIdxs, flatten, treeLeaves]
  | nodeT b l r ihl ihr =>
    intro off
    simp only [leafTriIdxs, flatten, treeLeaves, List.filterMap_cons,
      List.filterMap_append]
    rw [if_neg (by omega)]
    rw [← leafTriIdxs, ← leafTriIdxs, ihl, ihr]

theorem length_sortedRange (verts : List Vec3) (tris : List Tri)
    (tis : List TriInfo) : (sortedRange verts tris tis).length = tis.length := by
  simp [sortedRange, List.length_mergeSort]

theorem sortedRange_perm (verts : List Vec3) (tris : List Tri)
    (tis : List TriInfo) : (sortedRange verts tris tis).Perm tis :=
  List.mergeSort_perm tis _

theorem buildNode_leaves_perm (verts : List Vec3) (tris : List Tri) :
    ∀ (n : ℕ) (tis : List TriInfo), tis.length = n → tis ≠ [] →
      (treeLeaves (buildNode verts tris tis)).Perm (tis.map TriInfo.idx) := by
  intro n
  induction n using Nat.strong_induction_on with
  | _ n IH =>
    intro tis hlen hne
    rw [buildNode]
    split_ifs with h1
    · obtain ⟨a, rfl⟩ := List.length_eq_one.mp
        (le_antisymm h1 (List.length_pos.mpr hne))
      simp [treeLeaves]
    · simp only [treeLeaves]
      have hslen := length_sortedRange verts tris tis
      have hmidlt : tis.length / 2 < tis.length := by omega
      have hmidpos : 0 < tis.length / 2 := by omega
      have htake : ((sortedRange verts tris tis).take (tis.length / 2)).length =
          tis.length / 2 := by
        simp [List.length_take, hslen]
        omega
      have hdrop : ((sortedRange verts tris tis).drop (tis.length / 2)).length =
          tis.length - tis.length / 2 := by
        simp [List.length_drop, hslen]
      have e1 := IH (tis.length / 2) (by omega) _ htake
        (List.ne_nil_of_length_pos (by omega))
      have e2 := IH (tis.length - tis.length / 2) (by omega) _ hdrop
        (List.ne_nil_of_length_pos (by omega))
      refine (e1.append e2).trans ?_
      rw [← List.map_append, List.take_append_drop]
      exact (sortedRange_perm verts tris tis).map _

/-- Claim C1: for every vertex list and nonempty triangle list, the
triangle indices stored in the leaves of the built BVH are exactly the
input index set 0 .. triangleCount - 1, each appearing exactly once. -/
theorem C1_bvh_partition (verts : List Vec3) (tris : List Tri)
    (hne : tris ≠ []) :
    (leafTriIdxs (buildBVH verts tris)).Perm (List.range tris.length) := by
  rw [buildBVH, if_neg (by simpa using hne)]
  rw [leafTriIdxs_flatten]
  have h1 := buildNode_leaves_perm verts tris (triInfos verts tris).length
    (triInfos verts tris) rfl
    (by simp [triInfos, List.enum, hne])
  have h2 : (triInfos verts tris).map TriInfo.idx = List.range tris.length := by
    simp only [triInfos, List.map_map]
    have : (TriInfo.idx ∘ fun p : ℕ × Tri =>
        ({ idx := p.1,
           cx := ((vAt verts p.2.a).x + (vAt verts p.2.b).x + (vAt verts p.2.c).x) / 3,
           cy := ((vAt verts p.2.a).y + (vAt verts p.2.b).y + (vAt verts p.2.c).y) / 3,
           cz := ((vAt verts p.2.a).z + (vAt verts p.2.b).z + (vAt verts p.2.c).z) / 3 } :
            TriInfo)) = Prod.fst := rfl
    rw [this, List.enum_map_fst]
  exact (h1.trans (by rw [h2]))

/-- Witness for claim C1: the two-triangle demo scene yields leaves
holding exactly the indices 0 and 1. -/
theorem C1_bvh_partition_witness :
    (leafTriIdxs (buildBVH demoVerts demoTris)).Perm
      (List.range demoTris.length) :=
  C1_bvh_partition demoVerts demoTris (by with_unfolding_all decide)

/-! Theorems for claim C3: child boxes are contained in parent boxes. -/

theorem foldl_min_le_init {α : Type} [LinearOrder α] (t : List α) :
    ∀ acc : α, t.foldl min acc ≤ acc := by
  induction t with
  | nil => intro acc; exact le_refl _
  | cons a t ih =>
    intro acc
    exact le_trans (ih (min acc a)) (min_le_left _ _)

theorem foldl_min_le_mem {α : Type} [LinearOrder α] (t : List α) :
    ∀ (acc x : α), x ∈ t →
    t.foldl min acc ≤ x := by
  induction t with
  | nil => intro _ x hx; exact absurd hx (List.not_mem_nil x)
  | cons a t ih =>
    intro acc x hx
    rcases List.mem_cons.mp hx with h | h
    · subst h
      exact le_trans (foldl_min_le_init t (min acc x)) (min_le_right _ _)
    · exact ih (min acc a) x h

theorem foldl_min_mem {α : Type} [LinearOrder α] (t : List α) :
    ∀ acc : α, t.foldl min acc ∈ acc :: t := by
  induction t with
  | nil => intro acc; simp
  | cons a t ih =>
    intro acc
    rw [List.foldl_cons]
    have h := ih (min acc a)
    rcases List.mem_cons.mp h with h | h
    · rcases min_choice acc a with hc | hc <;> rw [h, hc]
      · exact List.mem_cons_self _ _
      · exact List.mem_cons_of_mem _ (List.mem_cons_self _ _)
    · exact List.mem_cons_of_mem _ (List.mem_cons_of_mem _ h)

theorem foldl_max_init_le {α : Type} [LinearOrder α] (t : List α) :
    ∀ acc : α, acc ≤ t.foldl max acc := by
  induction t with
  | nil => intro acc; exact le_refl _
  | cons a t ih =>
    intro acc
    exact le_trans (le_max_left _ _) (ih (max acc a))

theorem foldl_max_mem_le {α : Type} [LinearOrder α] (t : List α) :
    ∀ (acc x : α), x ∈ t →
    x ≤ t.foldl max acc := by
  induction t with
  | nil => intro _ x hx; exact absurd hx (List.not_mem_nil x)
  | cons a t ih =>
    intro acc x hx
    rcases List.mem_cons.mp hx with h | h
    · subst h
      exact le_trans (le_max_right _ _) (foldl_max_init_le t (max acc x))
    · exact ih (max acc a) x h

theorem foldl_max_mem {α : Type} [LinearOrder α] (t : List α) :
    ∀ acc : α, t.foldl max acc ∈ acc :: t := by
  induction t with
  | nil => intro acc; simp
  | cons a t ih =>
    intro acc
    rw [List.foldl_cons]
    have h := ih (max acc a)
    rcases List.mem_cons.mp h with h | h
    · rcases max_choice acc a with hc | hc <;> rw [h, hc]
      · exact List.mem_cons_self _ _
      · exact List.mem_cons_of_mem _ (List.mem_cons_self _ _)
    · exact List.mem_cons_of_mem _ (List.mem_cons_of_mem _ h)

theorem qMin_le (l : List ℚ) (x : ℚ) (hx : x ∈ l) : qMin l ≤ x := by
  cases l with
  | nil => exact absurd hx (List.not_mem_nil x)
  | cons a t =>
    rcases List.mem_cons.mp hx with h | h
    · subst h; exact foldl_min_le_init t x
    · exact foldl_min_le_mem t a x h

theorem le_qMax (l : List ℚ) (x : ℚ) (hx : x ∈ l) : x ≤ qMax l := by
  cases l with
  | nil => exact absurd hx (List.not_mem_nil x)
  | cons a t =>
    rcases List.mem_cons.mp hx with h | h
    · subst h; exact foldl_max_init_le t x
    · exact foldl_max_mem_le t a x h

theorem qMin_mem (l : List ℚ) (h : l ≠ []) : qMin l ∈ l := by
  cases l with
  | nil => exact absurd rfl h
  | cons a t => exact foldl_min_mem t a

theorem qMax_mem (l : List ℚ) (h : l ≠ []) : qMax l ∈ l := by
  cases l with
  | nil => exact absurd rfl h
  | cons a t => exact foldl_max_mem t a

theorem qMin_le_qMin (l₁ l₂ : List ℚ) (hsub : ∀ x ∈ l₂, x ∈ l₁)
    (h : l₂ ≠ []) : qMin l₁ ≤ qMin l₂ :=
  qMin_le l₁ _ (hsub _ (qMin_mem l₂ h))

theorem qMax_le_qMax (l₁ l₂ : List ℚ) (hsub : ∀ x ∈ l₂, x ∈ l₁)
    (h : l₂ ≠ []) : qMax l₂ ≤ qMax l₁ :=
  le_qMax l₁ _ (hsub _ (qMax_mem l₂ h))

theorem rangePoints_subset (verts : List Vec3) (tris : List Tri)
    {tis₁ tis₂ : List TriInfo} (hsub : ∀ ti ∈ tis₂, ti ∈ tis₁) :
    ∀ p ∈ rangePoints verts tris tis₂, p ∈ rangePoints verts tris tis₁ := by
  intro p hp
  rcases List.mem_flatMap.mp hp with ⟨ti, hti, hpin⟩
  exact List.mem_flatMap.mpr ⟨ti, hsub ti hti, hpin⟩

theorem rangePoints_ne_nil (verts : List Vec3) (tris : List Tri)
    {tis : List TriInfo} (hne : tis ≠ []) :
    rangePoints verts tris tis ≠ [] := by
  cases tis with
  | nil => exact absurd rfl hne
  | cons ti rest => simp [rangePoints]

theorem computeAABB_mono (verts : List Vec3) (tris : List Tri)
    {tis₁ tis₂ : List TriInfo} (hsub : ∀ ti ∈ tis₂, ti ∈ tis₁)
    (hne : tis₂ ≠ []) :
    boxContains (computeTriangleAABB verts tris tis₁)
      (computeTriangleAABB verts tris tis₂) := by
  have hps := rangePoints_subset verts tris hsub
  have hpne := rangePoints_ne_nil verts tris hne
  have hmap : ∀ f : Vec3 → ℚ, ∀ q ∈ (rangePoints verts tris tis₂).map f,
      q ∈ (rangePoints verts tris tis₁).map f := by
    intro f q hq
    rcases List.mem_map.mp hq with ⟨p, hp, rfl⟩
    exact List.mem_map.mpr ⟨p, hps p hp, rfl⟩
  have hmapne : ∀ f : Vec3 → ℚ, (rangePoints verts tris tis₂).map f ≠ [] := by
    intro f h
    exact hpne (List.map_eq_nil_iff.mp h)
  exact ⟨qMin_le_qMin _ _ (hmap _) (hmapne _), qMin_le_qMin _ _ (hmap _) (hmapne _),
    qMin_le_qMin _ _ (hmap _) (hmapne _), qMax_le_qMax _ _ (hmap _) (hmapne _),
    qMax_le_qMax _ _ (hmap _) (hmapne _), qMax_le_qMax _ _ (hmap _) (hmapne _)⟩

theorem rootBox_buildNode (verts : List Vec3) (tris : List Tri)
    (tis : List TriInfo) :
    rootBox (buildNode verts tris tis) = computeTriangleAABB verts tris tis := by
  rw [buildNode]
  split_ifs <;> rfl

theorem buildNode_nested (verts : List Vec3) (tris : List Tri) :
    ∀ (n : ℕ) (tis : List TriInfo), tis.length = n →
      treeNested (buildNode verts tris tis) := by
  intro n
  induction n using Nat.strong_induction_on with
  | _ n IH =>
    intro tis hlen
    rw [buildNode]
    split_ifs with h1
    · trivial
    · have hslen := length_sortedRange verts tris tis
      have htake : ((sortedRange verts tris tis).take (tis.length / 2)).length =
          tis.length / 2 := by
        simp [List.length_take, hslen]
        omega
      have hdrop : ((sortedRange verts tris tis).drop (tis.length / 2)).length =
          tis.length - tis.length / 2 := by
        simp [List.length_drop, hslen]
      have hsubt : ∀ ti ∈ (sortedRange verts tris tis).take (tis.length / 2),
          ti ∈ tis := fun ti h =>
        (sortedRange_perm verts tris tis).mem_iff.mp (List.mem_of_mem_take h)
      have hsubd : ∀ ti ∈ (sortedRange verts tris tis).drop (tis.length / 2),
          ti ∈ tis := fun ti h =>
        (sortedRange_perm verts tris tis).mem_iff.mp (List.mem_of_mem_drop h)
      refine ⟨?_, ?_, ?_, ?_⟩
      · rw [rootBox_buildNode]
        exact computeAABB_mono verts tris hsubt
          (List.ne_nil_of_length_pos (by omega))
      · rw [rootBox_buildNode]
        exact computeAABB_mono verts tris hsubd
          (List.ne_nil_of_length_pos (by omega))
      · exact IH (tis.length / 2) (by omega) _ htake
      · exact IH (tis.length - tis.length / 2) (by omega) _ hdrop

theorem length_flatten (t : BVHTree) : ∀ off, (flatten off t).length = flatSize t := by
  induction t with
  | leafT b i => intro off; rfl
  | nodeT b l r ihl ihr =>
    intro off
    simp [flatten, flatSize, ihl, ihr]
    omega

theorem flatSize_pos : ∀ t : BVHTree, 0 < flatSize t := by
  intro t
  cases t with
  | leafT b i => exact Nat.one_pos
  | nodeT b l r => simp [flatSize]

theorem flatten_head (t : BVHTree) (off : ℕ) :
    ∃ nd rest, flatten off t = nd :: rest ∧ nd.bmin = (rootBox t).bmin ∧
      nd.bmax = (rootBox t).bmax := by
  cases t <;> exact ⟨_, _, rfl, rfl, rfl⟩

theorem flatten_children : ∀ t : BVHTree, treeNested t →
    ∀ (off k : ℕ) (nd : BVHNode), (flatten off t)[k]? = some nd →
      nd.triIdx < 0 →
      ∃ (jl jr : ℕ) (ndl ndr : BVHNode),
        nd.left = ((off + jl : ℕ) : Int) ∧ nd.right = ((off + jr : ℕ) : Int) ∧
        (flatten off t)[jl]? = some ndl ∧ (flatten off t)[jr]? = some ndr ∧
        boxContains ⟨nd.bmin, nd.bmax⟩ ⟨ndl.bmin, ndl.bmax⟩ ∧
        boxContains ⟨nd.bmin, nd.bmax⟩ ⟨ndr.bmin, ndr.bmax⟩ := by
  intro t
  induction t with
  | leafT b i =>
    intro _ off k nd hk hneg
    cases k with
    | zero =>
      have : nd = ⟨b.bmin, b.bmax, -1, -1, (i : Int)⟩ := by
        simpa [flatten] using hk.symm
      subst this
      simp at hneg
      omega
    | succ k => simp [flatten] at hk
  | nodeT b l r ihl ihr =>
    intro hn off k nd hk hneg
    obtain ⟨hbl, hbr, hl, hr⟩ := hn
    have hflat : flatten off (.nodeT b l r) =
        ⟨b.bmin, b.bmax, ((off + 1 : ℕ) : Int), ((off + 1 + flatSize l : ℕ) : Int),
            -1⟩ ::
          (flatten (off + 1) l ++ flatten (off + 1 + flatSize l) r) := rfl
    cases k with
    | zero =>
      have hnd : nd = ⟨b.bmin, b.bmax, ((off + 1 : ℕ) : Int),
          ((off + 1 + flatSize l : ℕ) : Int), -1⟩ := by
        rw [hflat] at hk
        simpa using hk.symm
      subst hnd
      obtain ⟨ndl, restl, hLl, hbl1, hbl2⟩ := flatten_head l (off + 1)
      obtain ⟨ndr, restr, hRr, hbr1, hbr2⟩ := flatten_head r (off + 1 + flatSize l)
      refine ⟨1, 1 + flatSize l, ndl, ndr, rfl, by push_cast; ring_nf, ?_, ?_, ?_, ?_⟩
      · rw [hflat]
        rw [List.getElem?_cons_succ, List.getElem?_append_left
          (by rw [length_flatten]; exact flatSize_pos l :
            0 < (flatten (off + 1) l).length), hLl]
        simp
      · rw [hflat]
        have h1 : (1 + flatSize l : ℕ) = flatSize l + 1 := by omega
        rw [h1, List.getElem?_cons_succ, List.getElem?_append_right
          (by rw [length_flatten] : (flatten (off + 1) l).length ≤ flatSize l)]
        rw [length_flatten, Nat.sub_self, hRr]
        simp
      · simpa [boxContains, hbl1, hbl2] using hbl
      · simpa [boxContains, hbr1, hbr2] using hbr
    | succ k =>
      rw [hflat, List.getElem?_cons_succ] at hk
      by_cases hkL : k < (flatten (off + 1) l).length
      · rw [List.getElem?_append_left hkL] at hk
        obtain ⟨jl, jr, ndl, ndr, e1, e2, g1, g2, c1, c2⟩ :=
          ihl hl (off + 1) k nd hk hneg
        have hjl : jl < (flatten (off + 1) l).length := by
          rcases List.getElem?_eq_some.mp g1 with ⟨h, _⟩
          exact h
        have hjr : jr < (flatten (off + 1) l).length := by
          rcases List.getElem?_eq_some.mp g2 with ⟨h, _⟩
          exact h
        refine ⟨1 + jl, 1 + jr, ndl, ndr, ?_, ?_, ?_, ?_, c1, c2⟩
        · rw [e1]; push_cast; ring_nf
        · rw [e2]; push_cast; ring_nf
        · rw [hflat]
          have h1 : (1 + jl : ℕ) = jl + 1 := by omega
          rw [h1, List.getElem?_cons_succ, List.getElem?_append_left hjl, g1]
        · rw [hflat]
          have h1 : (1 + jr : ℕ) = jr + 1 := by omega
          rw [h1, List.getElem?_cons_succ, List.getElem?_append_left hjr, g2]
      · rw [List.getElem?_append_right (le_of_not_lt hkL)] at hk
        obtain ⟨jl, jr, ndl, ndr, e1, e2, g1, g2, c1, c2⟩ :=
          ihr hr (off + 1 + flatSize l) (k - (flatten (off + 1) l).length) nd hk
            hneg
        have hjl : jl < (flatten (off + 1 + flatSize l) r).length := by
          rcases List.getElem?_eq_some.mp g1 with ⟨h, _⟩
          exact h
        have hjr : jr < (flatten (off + 1 + flatSize l) r).length := by
          rcases List.getElem?_eq_some.mp g2 with ⟨h, _⟩
          exact h
        refine ⟨1 + flatSize l + jl, 1 + flatSize l + jr, ndl, ndr, ?_, ?_, ?_,
          ?_, c1, c2⟩
        · rw [e1]; push_cast; ring_nf
        · rw [e2]; push_cast; ring_nf
        · rw [hflat]
          have h1 : (1 + flatSize l + jl : ℕ) = (flatSize l + jl) + 1 := by omega
          rw [h1, List.getElem?_cons_succ, List.getElem?_append_right
            (by rw [length_flatten]; omega :
              (flatten (off + 1) l).length ≤ flatSize l + jl)]
          rw [length_flatten]
          have h2 : flatSize l + jl - flatSize l = jl := by omega
          rw [h2, g1]
        · rw [hflat]
          have h1 : (1 + flatSize l + jr : ℕ) = (flatSize l + jr) + 1 := by omega
          rw [h1, List.getElem?_cons_succ, List.getElem?_append_right
            (by rw [length_flatten]; omega :
              (flatten (off + 1) l).length ≤ flatSize l + jr)]
          rw [length_flatten]
          have h2 : flatSize l + jr - flatSize l = jr := by omega
          rw [h2, g2]

/-- Claim C3: in every BVH produced by buildBVH, every inner node has
two valid child indices, and both child boxes are contained in the
parent box componentwise. -/
theorem C3_child_boxes (verts : List Vec3) (tris : List Tri) (i : ℕ)
    (nd : BVHNode) (hget : (buildBVH verts tris)[i]? = some nd)
    (hinner : nd.triIdx < 0) :
    ∃ ndl ndr, (buildBVH verts tris)[nd.left.toNat]? = some ndl ∧
      (buildBVH verts tris)[nd.right.toNat]? = some ndr ∧
      boxContains ⟨nd.bmin, nd.bmax⟩ ⟨ndl.bmin, ndl.bmax⟩ ∧
      boxContains ⟨nd.bmin, nd.bmax⟩ ⟨ndr.bmin, ndr.bmax⟩ := by
  by_cases hlen : tris.length = 0
  · rw [buildBVH, if_pos hlen] at hget
    simp at hget
  · rw [buildBVH, if_neg hlen] at hget ⊢
    have hnest := buildNode_nested verts tris (triInfos verts tris).length
      (triInfos verts tris) rfl
    obtain ⟨jl, jr, ndl, ndr, e1, e2, g1, g2, c1, c2⟩ :=
      flatten_children _ hnest 0 i nd hget hinner
    have hl : nd.left.toNat = jl := by rw [e1]; simp
    have hr : nd.right.toNat = jr := by rw [e2]; simp
    rw [hl, hr]
    exact ⟨ndl, ndr, g1, g2, c1, c2⟩

/-- Witness for claim C3: the root of the two-triangle demo BVH has its
two leaf boxes contained in the root box. -/
theorem C3_child_boxes_witness :
    ∃ ndl ndr,
      (buildBVH demoVerts demoTris)[((⟨⟨4, 4, 4⟩, ⟨17, 17, 17⟩, 1, 2, -1⟩ :
        BVHNode)).left.toNat]? = some ndl ∧
      (buildBVH demoVerts demoTris)[((⟨⟨4, 4, 4⟩, ⟨17, 17, 17⟩, 1, 2, -1⟩ :
        BVHNode)).right.toNat]? = some ndr ∧
      boxContains ⟨⟨4, 4, 4⟩, ⟨17, 17, 17⟩⟩ ⟨ndl.bmin, ndl.bmax⟩ ∧
      boxContains ⟨⟨4, 4, 4⟩, ⟨17, 17, 17⟩⟩ ⟨ndr.bmin, ndr.bmax⟩ :=
  C3_child_boxes demoVerts demoTris 0 ⟨⟨4, 4, 4⟩, ⟨17, 17, 17⟩, 1, 2, -1⟩
    (by with_unfolding_all decide) (by with_unfolding_all decide)

/-! Theorems for claim C2: any-hit against closest-hit. -/

theorem foldl_min_lt_iff {α : Type} [LinearOrder α] :
    ∀ (l : List α) (init c : α),
      l.foldl min init < c ↔ init < c ∨ ∃ x ∈ l, x < c := by
  intro l
  induction l with
  | nil => intro init c; simp
  | cons a l ih =>
    intro init c
    rw [List.foldl_cons, ih, min_lt_iff]
    constructor
    · rintro ((h | h) | ⟨x, hx, hlt⟩)
      · exact Or.inl h
      · exact Or.inr ⟨a, List.mem_cons_self _ _, h⟩
      · exact Or.inr ⟨x, List.mem_cons_of_mem _ hx, hlt⟩
    · rintro (h | ⟨x, hx, hlt⟩)
      · exact Or.inl (Or.inl h)
      · rcases List.mem_cons.mp hx with rfl | hx
        · exact Or.inl (Or.inr hlt)
        · exact Or.inr ⟨x, hx, hlt⟩

theorem hitTs_lt_top (ox oy oz dx dy dz : ℚ) (verts : List Vec3)
    (tris : List Tri) (L : List ℕ) (t : WithTop ℚ)
    (ht : t ∈ hitTs ox oy oz dx dy dz verts tris L) : t < ⊤ := by
  rcases List.mem_filterMap.mp ht with ⟨i, _, hmap⟩
  rcases Option.map_eq_some'.mp hmap with ⟨h, _, rfl⟩
  exact WithTop.coe_lt_top _

theorem closest_fold_spec (ox oy oz dx dy dz : ℚ) (verts : List Vec3)
    (tris : List Tri) :
    ∀ (L : List ℕ) (acc : WithTop ℚ × Int × Option MTHit),
      (0 ≤ acc.2.1 → ∃ h, acc.2.2 = some h ∧ (h.t : WithTop ℚ) = acc.1) →
      ((L.foldl (closestStep ox oy oz dx dy dz verts tris) acc).1 =
          (hitTs ox oy oz dx dy dz verts tris L).foldl min acc.1) ∧
        (0 ≤ (L.foldl (closestStep ox oy oz dx dy dz verts tris) acc).2.1 →
          ∃ h, (L.foldl (closestStep ox oy oz dx dy dz verts tris) acc).2.2 =
              some h ∧
            (h.t : WithTop ℚ) =
              (L.foldl (closestStep ox oy oz dx dy dz verts tris) acc).1) ∧
        (0 ≤ (L.foldl (closestStep ox oy oz dx dy dz verts tris) acc).2.1 ↔
          0 ≤ acc.2.1 ∨
            ∃ t ∈ hitTs ox oy oz dx dy dz verts tris L, t < acc.1) := by
  intro L
  induction L with
  | nil =>
    intro acc hAcc
    refine ⟨rfl, hAcc, ?_⟩
    simp [hitTs]
  | cons i L ih =>
    intro acc hAcc
    rw [List.foldl_cons]
    rcases hth : triHit ox oy oz dx dy dz verts tris i with _ | h
    · have hstep : closestStep ox oy oz dx dy dz verts tris acc i = acc := by
        unfold closestStep
        rw [hth]
      have hts : hitTs ox oy oz dx dy dz verts tris (i :: L) =
          hitTs ox oy oz dx dy dz verts tris L := by
        unfold hitTs
        exact List.filterMap_cons_none (by rw [hth]; rfl)
      rw [hstep, hts]
      exact ih acc hAcc
    · have hts : hitTs ox oy oz dx dy dz verts tris (i :: L) =
          (h.t : WithTop ℚ) :: hitTs ox oy oz dx dy dz verts tris L := by
        unfold hitTs
        exact List.filterMap_cons_some (by rw [hth]; rfl)
      by_cases hlt : (h.t : WithTop ℚ) < acc.1
      · have hstep : closestStep ox oy oz dx dy dz verts tris acc i =
            ((h.t : WithTop ℚ), (i : Int), some h) := by
          unfold closestStep
          rw [hth]
          exact if_pos hlt
        rw [hstep, hts]
        have hAcc2 : (0 : Int) ≤ ((i : Int), some h).1 →
            ∃ h2, (((h.t : WithTop ℚ), (i : Int), some h)).2.2 = some h2 ∧
              (h2.t : WithTop ℚ) = (((h.t : WithTop ℚ), (i : Int), some h)).1 :=
          fun _ => ⟨h, rfl, rfl⟩
        obtain ⟨ih1, ih2, ih3⟩ := ih ((h.t : WithTop ℚ), (i : Int), some h) hAcc2
        refine ⟨?_, ih2, ?_⟩
        · rw [ih1, List.foldl_cons, min_eq_right hlt.le]
        · rw [ih3]
          constructor
          · intro _
            exact Or.inr ⟨(h.t : WithTop ℚ), List.mem_cons_self _ _, hlt⟩
          · intro _
            exact Or.inl (Int.natCast_nonneg i)
      · have hstep : closestStep ox oy oz dx dy dz verts tris acc i = acc := by
          unfold closestStep
          rw [hth]
          exact if_neg hlt
        rw [hstep, hts]
        obtain ⟨ih1, ih2, ih3⟩ := ih acc hAcc
        refine ⟨?_, ih2, ?_⟩
        · rw [ih1, List.foldl_cons, min_eq_left (not_lt.mp hlt)]
        · rw [ih3]
          constructor
          · rintro (hi | ⟨t, htm, htl⟩)
            · exact Or.inl hi
            · exact Or.inr ⟨t, List.mem_cons_of_mem _ htm, htl⟩
          · rintro (hi | ⟨t, htm, htl⟩)
            · exact Or.inl hi
            · rcases List.mem_cons.mp htm with rfl | htm
              · exact absurd htl hlt
              · exact Or.inr ⟨t, htm, htl⟩

theorem closestResult_some_iff (ox oy oz dx dy dz : ℚ) (verts : List Vec3)
    (tris : List Tri) (L : List ℕ) (c : WithTop ℚ) :
    (∃ r : ClosestHit,
        closestResult ox oy oz dx dy dz verts tris L ⊤ = some r ∧
          (r.t : WithTop ℚ) < c) ↔
      ∃ t ∈ hitTs ox oy oz dx dy dz verts tris L, t < c := by
  obtain ⟨h1, h2, h3⟩ := closest_fold_spec ox oy oz dx dy dz verts tris L
    (⊤, -1, none) (fun hcon => absurd hcon (by decide))
  simp only [closestResult]
  constructor
  · rintro ⟨r, hr, hlt⟩
    by_cases hidx : 0 ≤ (L.foldl (closestStep ox oy oz dx dy dz verts tris)
        (⊤, -1, none)).2.1
    · obtain ⟨h, hsome, hteq⟩ := h2 hidx
      rw [if_pos hidx, hsome] at hr
      have heq := Option.some.inj hr
      have hrt : r.t = h.t := by rw [← heq]
      rw [hrt, hteq, h1] at hlt
      rcases (foldl_min_lt_iff _ _ _).mp hlt with htop | hex
      · exact absurd htop not_top_lt
      · exact hex
    · rw [if_neg hidx] at hr
      exact absurd hr (by simp)
  · rintro ⟨t, htm, htl⟩
    have hidx : 0 ≤ (L.foldl (closestStep ox oy oz dx dy dz verts tris)
        (⊤, -1, none)).2.1 :=
      h3.mpr (Or.inr ⟨t, htm,
        hitTs_lt_top ox oy oz dx dy dz verts tris L t htm⟩)
    obtain ⟨h, hsome, hteq⟩ := h2 hidx
    rw [if_pos hidx, hsome]
    refine ⟨_, rfl, ?_⟩
    show (h.t : WithTop ℚ) < c
    rw [hteq, h1]
    exact lt_of_le_of_lt (foldl_min_le_mem _ _ t htm) htl

theorem anyHit_list_iff (ox oy oz dx dy dz : ℚ) (verts : List Vec3)
    (tris : List Tri) (L : List ℕ) (maxT : WithTop ℚ) :
    (L.any fun i =>
        match triHit ox oy oz dx dy dz verts tris i with
        | some h => decide ((h.t : WithTop ℚ) < maxT)
        | none => false) = true ↔
      ∃ t ∈ hitTs ox oy oz dx dy dz verts tris L, t < maxT := by
  rw [List.any_eq_true]
  constructor
  · rintro ⟨i, hiL, hp⟩
    rcases hth : triHit ox oy oz dx dy dz verts tris i with _ | h
    · rw [hth] at hp
      simp at hp
    · rw [hth] at hp
      exact ⟨(h.t : WithTop ℚ),
        List.mem_filterMap.mpr ⟨i, hiL, by rw [hth]; rfl⟩, of_decide_eq_true hp⟩
  · rintro ⟨t, htm, htl⟩
    rcases List.mem_filterMap.mp htm with ⟨i, hiL, hmap⟩
    rcases Option.map_eq_some'.mp hmap with ⟨h, hth, rfl⟩
    exact ⟨i, hiL, by rw [hth]; exact decide_eq_true htl⟩

/-- Counterexample for claim C2: a scene with a single triangle hit at
distance exactly 5.  With maxDistance 5, bvhAnyHit is false (the code
compares strictly), yet bvhClosestHit returns a hit with t = 5, which
satisfies t ≤ maxDistance, so the claimed equivalence with a non-strict
bound fails. -/
theorem C2_counterexample :
    ¬ (bvhAnyHit 0 0 0 1 1 1 (buildBVH demoVerts1 demoTris1) demoVerts1
          demoTris1 ((5 : ℚ) : WithTop ℚ) = true ↔
        ∃ r : ClosestHit,
          bvhClosestHit 0 0 0 1 1 1 (buildBVH demoVerts1 demoTris1) demoVerts1
              demoTris1 ⊤ = some r ∧
            (r.t : WithTop ℚ) ≤ ((5 : ℚ) : WithTop ℚ)) := by
  intro hiff
  have hclosest : bvhClosestHit 0 0 0 1 1 1 (buildBVH demoVerts1 demoTris1)
      demoVerts1 demoTris1 ⊤ = some ⟨5, 0, ⟨5, 1/3, 1/3⟩⟩ := by
    with_unfolding_all decide
  have hany : bvhAnyHit 0 0 0 1 1 1 (buildBVH demoVerts1 demoTris1) demoVerts1
      demoTris1 ((5 : ℚ) : WithTop ℚ) = false := by
    with_unfolding_all decide
  have htrue := hiff.mpr ⟨⟨5, 0, ⟨5, 1/3, 1/3⟩⟩, hclosest, le_refl _⟩
  rw [hany] at htrue
  exact Bool.false_ne_true htrue

/-- Claim C2 (amended): for every BVH built from a triangle set, every
ray and every maxDistance, bvhAnyHit is true exactly when bvhClosestHit
with an unbounded search returns a hit with t strictly below
maxDistance.  The bound must be strict: the source compares
hit.t < maxT. -/
theorem C2_anyhit_iff_closesthit (verts : List Vec3) (tris : List Tri)
    (ox oy oz dx dy dz : ℚ) (maxD : WithTop ℚ) :
    bvhAnyHit ox oy oz dx dy dz (buildBVH verts tris) verts tris maxD = true ↔
      ∃ r : ClosestHit,
        bvhClosestHit ox oy oz dx dy dz (buildBVH verts tris) verts tris ⊤ =
            some r ∧
          (r.t : WithTop ℚ) < maxD := by
  rw [bvhAnyHit, bvhClosestHit]
  by_cases hlen : (buildBVH verts tris).length = 0
  · rw [if_pos hlen, if_pos hlen]
    simp
  · rw [if_neg hlen, if_neg hlen]
    rw [anyHit_list_iff]
    exact (closestResult_some_iff ox oy oz dx dy dz verts tris _ maxD).symm

/-! Theorems for claim C9: the traversal stack stays within the bound
ceil(log2 n) + 1, so the 64-entry stack is never exceeded. -/

theorem theight_pos : ∀ t : BVHTree, 0 < theight t := by
  intro t
  cases t with
  | leafT b i => exact Nat.one_pos
  | nodeT b l r => simp [theight]

theorem subtreeAt_leaf {ns : List BVHNode} {i : ℕ} {b : Box} {j : ℕ}
    (h : subtreeAt ns i (.leafT b j)) :
    ns[i]? = some ⟨b.bmin, b.bmax, -1, -1, (j : Int)⟩ := by
  have h0 := h 0 (flatSize_pos _)
  rw [Nat.add_zero] at h0
  rw [h0]
  exact List.getElem?_cons_zero

theorem subtreeAt_node {ns : List BVHNode} {i : ℕ} {b : Box}
    {l r : BVHTree} (h : subtreeAt ns i (.nodeT b l r)) :
    ns[i]? = some ⟨b.bmin, b.bmax, ((i + 1 : ℕ) : Int),
        ((i + 1 + flatSize l : ℕ) : Int), -1⟩ ∧
      subtreeAt ns (i + 1) l ∧ subtreeAt ns (i + 1 + flatSize l) r := by
  have hflat : flatten i (.nodeT b l r) =
      ⟨b.bmin, b.bmax, ((i + 1 : ℕ) : Int), ((i + 1 + flatSize l : ℕ) : Int),
          -1⟩ ::
        (flatten (i + 1) l ++ flatten (i + 1 + flatSize l) r) := rfl
  refine ⟨?_, ?_, ?_⟩
  · have h0 := h 0 (flatSize_pos _)
    rw [Nat.add_zero] at h0
    rw [h0, hflat]
    exact List.getElem?_cons_zero
  · intro k hk
    have hk2 : 1 + k < flatSize (BVHTree.nodeT b l r) := by
      simp only [flatSize]
      omega
    have := h (1 + k) hk2
    have hidx : i + (1 + k) = i + 1 + k := by omega
    rw [hidx] at this
    rw [this, hflat]
    have h1 : (1 + k : ℕ) = k + 1 := by omega
    rw [h1, List.getElem?_cons_succ,
      List.getElem?_append_left (by rw [length_flatten]; exact hk)]
  · intro k hk
    have hk2 : 1 + flatSize l + k < flatSize (BVHTree.nodeT b l r) := by
      simp only [flatSize]
      omega
    have := h (1 + flatSize l + k) hk2
    have hidx : i + (1 + flatSize l + k) = i + 1 + flatSize l + k := by omega
    rw [hidx] at this
    rw [this, hflat]
    have h1 : (1 + flatSize l + k : ℕ) = (flatSize l + k) + 1 := by omega
    rw [h1, List.getElem?_cons_succ,
      List.getElem?_append_right (by rw [length_flatten]; omega :
        (flatten (i + 1) l).length ≤ flatSize l + k)]
    rw [length_flatten]
    have h2 : flatSize l + k - flatSize l = k := by omega
    rw [h2]

theorem length_triInfos (verts : List Vec3) (tris : List Tri) :
    (triInfos verts tris).length = tris.length := by
  simp [triInfos]

theorem buildNode_height (verts : List Vec3) (tris : List Tri) :
    ∀ (n : ℕ) (tis : List TriInfo), tis.length = n → tis ≠ [] →
      theight (buildNode verts tris tis) ≤ Nat.clog 2 tis.length + 1 := by
  intro n
  induction n using Nat.strong_induction_on with
  | _ n IH =>
    intro tis hlen hne
    rw [buildNode]
    split_ifs with h1
    · simp [theight]
    · have hslen := length_sortedRange verts tris tis
      have h2 : 2 ≤ tis.length := by omega
      have htake : ((sortedRange verts tris tis).take (tis.length / 2)).length =
          tis.length / 2 := by
        simp [List.length_take, hslen]
        omega
      have hdrop : ((sortedRange verts tris tis).drop (tis.length / 2)).length =
          tis.length - tis.length / 2 := by
        simp [List.length_drop, hslen]
      have e1 := IH (tis.length / 2) (by omega) _ htake
        (List.ne_nil_of_length_pos (by omega))
      have e2 := IH (tis.length - tis.length / 2) (by omega) _ hdrop
        (List.ne_nil_of_length_pos (by omega))
      rw [htake] at e1
      rw [hdrop] at e2
      have hclog : Nat.clog 2 tis.length =
          Nat.clog 2 ((tis.length + 1) / 2) + 1 :=
        Nat.clog_of_two_le one_lt_two h2
      have hmono1 : Nat.clog 2 (tis.length / 2) ≤
          Nat.clog 2 ((tis.length + 1) / 2) :=
        Nat.clog_mono_right 2 (by omega)
      have heq2 : tis.length - tis.length / 2 = (tis.length + 1) / 2 := by
        omega
      rw [heq2] at e2
      simp only [theight]
      have hmax : max (theight (buildNode verts tris
          ((sortedRange verts tris tis).take (tis.length / 2))))
          (theight (buildNode verts tris
            ((sortedRange verts tris tis).drop (tis.length / 2)))) ≤
          Nat.clog 2 ((tis.length + 1) / 2) + 1 := by
        apply max_le
        · exact le_trans e1 (by omega)
        · exact e2
      omega

theorem traceMax_le (ox oy oz dx dy dz : ℚ) (ns : List BVHNode)
    (onLeaf : ℕ → Bool) (H : ℕ) :
    ∀ (fuel : ℕ) (stack : List ℕ) (ts : List BVHTree) (c : ℕ),
      1 ≤ c → c + ts.length ≤ H + 1 →
      List.Forall₂ (fun i t => subtreeAt ns i t) stack ts →
      goodStack c ts →
      traceMax ox oy oz dx dy dz ns onLeaf fuel stack ≤ H := by
  intro fuel
  induction fuel with
  | zero =>
    intro stack ts c hc hlen hrel _
    have := List.Forall₂.length_eq hrel
    simp only [traceMax]
    omega
  | succ fuel ih =>
    intro stack ts c hc hlen hrel hgood
    cases hrel with
    | nil => simp [traceMax]
    | cons hrel1 hrel2 =>
      rename_i i t st ts'
      obtain ⟨hht, hgood2⟩ := hgood
      have hlens := List.Forall₂.length_eq hrel2
      simp only [List.length_cons] at hlen
      have hcur : st.length + 1 ≤ H := by omega
      have hpop : traceMax ox oy oz dx dy dz ns onLeaf fuel st ≤ H :=
        ih st ts' (c + 1) (by omega) (by omega) hrel2 hgood2
      cases t with
      | leafT b j =>
        have hnd := subtreeAt_leaf hrel1
        simp only [traceMax, hnd]
        split_ifs with h1 h2 h3
        · exact max_le hcur hpop
        · exact hcur
        · exact max_le hcur hpop
        · exact absurd (Int.natCast_nonneg j) h2
      | nodeT b l r =>
        have hnd := (subtreeAt_node hrel1).1
        have hsl := (subtreeAt_node hrel1).2.1
        have hsr := (subtreeAt_node hrel1).2.2
        have hc2 : 2 ≤ c := by
          have h1 := theight_pos l
          have h2 := theight_pos r
          simp only [theight] at hht
          omega
        have hpush : traceMax ox oy oz dx dy dz ns onLeaf fuel
            ((i + 1 + flatSize l) :: (i + 1) :: st) ≤ H := by
          apply ih ((i + 1 + flatSize l) :: (i + 1) :: st) (r :: l :: ts')
            (c - 1) (by omega) (by simp only [List.length_cons]; omega)
          · exact List.Forall₂.cons hsr (List.Forall₂.cons hsl hrel2)
          · refine ⟨?_, ?_, ?_⟩
            · have h1 := theight_pos l
              simp only [theight] at hht
              omega
            · have h2 := theight_pos r
              simp only [theight] at hht
              omega
            · have hcc : c - 1 + 1 + 1 = c + 1 := by omega
              rw [hcc]
              exact hgood2
        simp only [traceMax, hnd]
        split_ifs with h1 h2 h3
        · exact max_le hcur hpop
        · exact absurd h2 (by decide)
        · exact absurd h2 (by decide)
        · show max (st.length + 1) (traceMax ox oy oz dx dy dz ns onLeaf fuel
            ((i + 1 + flatSize l) :: (i + 1) :: st)) ≤ H
          exact max_le hcur hpush

/-- Claim C9: for every BVH built from n triangles with 1 ≤ n ≤ 2^63,
the iterative walk of bvhTraverse never holds more than
ceil(log2 n) + 1 entries on its stack at once (for any fuel, ray and
leaf callback), and that bound never exceeds the 64 preallocated
entries, so the overflow case is unreachable for any feasible n. -/
theorem C9_stack_bound (verts : List Vec3) (tris : List Tri)
    (hne : tris ≠ []) (hfeas : tris.length ≤ 2 ^ 63) (fuel : ℕ)
    (ox oy oz dx dy dz : ℚ) (onLeaf : ℕ → Bool) :
    traceMax ox oy oz dx dy dz (buildBVH verts tris) onLeaf fuel [0] ≤
        Nat.clog 2 tris.length + 1 ∧
      Nat.clog 2 tris.length + 1 ≤ 64 := by
  constructor
  · have hlen0 : ¬ tris.length = 0 := by simpa using hne
    have hbvh : buildBVH verts tris =
        flatten 0 (buildNode verts tris (triInfos verts tris)) := by
      rw [buildBVH, if_neg hlen0]
    have hinfne : triInfos verts tris ≠ [] := by
      apply List.ne_nil_of_length_pos
      rw [length_triInfos]
      omega
    have hheight := buildNode_height verts tris (triInfos verts tris).length
      (triInfos verts tris) rfl hinfne
    rw [length_triInfos] at hheight
    apply traceMax_le ox oy oz dx dy dz (buildBVH verts tris) onLeaf
      (Nat.clog 2 tris.length + 1) fuel [0]
      [buildNode verts tris (triInfos verts tris)]
      (theight (buildNode verts tris (triInfos verts tris)))
    · exact theight_pos _
    · simp only [List.length_cons, List.length_nil]
      omega
    · refine List.Forall₂.cons ?_ List.Forall₂.nil
      intro k hk
      rw [hbvh, Nat.zero_add]
    · exact ⟨le_refl _, trivial⟩
  · have h63 : Nat.clog 2 tris.length ≤ 63 := by
      have := Nat.clog_mono_right 2 hfeas
      rwa [Nat.clog_pow 2 63 one_lt_two] at this
    omega

/-- Witness for claim C9: the two-triangle demo BVH walked with fuel 9
stays within the bound clog2(2) + 1 = 2 ≤ 64. -/
theorem C9_stack_bound_witness :
    traceMax 0 0 0 1 1 1 (buildBVH demoVerts demoTris) (fun _ => false) 9
        [0] ≤ Nat.clog 2 demoTris.length + 1 ∧
      Nat.clog 2 demoTris.length + 1 ≤ 64 :=
  C9_stack_bound demoVerts demoTris (by with_unfolding_all decide)
    (by with_unfolding_all decide) 9 0 0 0 1 1 1 (fun _ => false)

/-! Theorems for claim C10: the two field evaluators agree. -/

theorem flatMap_uniform_length {α β : Type} (f : β → List α) (Lc : ℕ) :
    ∀ l : List β, (∀ x ∈ l, (f x).length = Lc) →
      (l.flatMap f).length = l.length * Lc := by
  intro l
  induction l with
  | nil => intro _; simp
  | cons a l ih =>
    intro hL
    rw [List.flatMap_cons, List.length_append, ih
      (fun x hx => hL x (List.mem_cons_of_mem _ hx)),
      hL a (List.mem_cons_self _ _), List.length_cons, Nat.succ_mul]
    omega

theorem flatMap_uniform_getElem {α β : Type} (f : β → List α) (Lc : ℕ) :
    ∀ (l : List β) (i j : ℕ) (hi : i < l.length),
      (∀ x ∈ l, (f x).length = Lc) → j < Lc →
      (l.flatMap f)[i * Lc + j]? = (f (l.get ⟨i, hi⟩))[j]? := by
  intro l
  induction l with
  | nil => intro i j hi _ _; simp at hi
  | cons a l ih =>
    intro i j hi hL hj
    rw [List.flatMap_cons]
    cases i with
    | zero =>
      rw [Nat.zero_mul, Nat.zero_add]
      rw [List.getElem?_append_left
        (by rw [hL a (List.mem_cons_self _ _)]; exact hj)]
      rfl
    | succ i =>
      have he : (i + 1) * Lc + j = Lc + (i * Lc + j) := by
        rw [Nat.succ_mul]
        omega
      rw [he, List.getElem?_append_right
        (by rw [hL a (List.mem_cons_self _ _)]; omega)]
      rw [hL a (List.mem_cons_self _ _)]
      have h2 : Lc + (i * Lc + j) - Lc = i * Lc + j := by omega
      rw [h2]
      exact ih i j (by simpa using hi)
        (fun x hx => hL x (List.mem_cons_of_mem _ hx)) hj

theorem field_fold_eq_val (px py pz : ℚ) :
    ∀ (balls : List Ball) (acc : FieldGrad),
      (balls.foldl
        (fun acc b =>
          let dx := px - b.x
          let dy := py - b.y
          let dz := pz - b.z
          let dist2 := dx * dx + dy * dy + dz * dz + 1 / 10000
          let r2 := b.radius * b.radius
          let factor := -2 * r2 / (dist2 * dist2)
          (⟨acc.val + r2 / dist2, acc.gx + factor * dx, acc.gy + factor * dy,
            acc.gz + factor * dz⟩ : FieldGrad))
        acc).val =
      balls.foldl
        (fun val b =>
          let dx := px - b.x
          let dy := py - b.y
          let dz := pz - b.z
          let dist2 := dx * dx + dy * dy + dz * dz
          val + b.radius * b.radius / (dist2 + 1 / 10000))
        acc.val := by
  intro balls
  induction balls with
  | nil => intro acc; rfl
  | cons b bs ih =>
    intro acc
    rw [List.foldl_cons, List.foldl_cons, ih]

theorem triple_nested_getElem {α : Type} (g : ℕ → ℕ → ℕ → α) (n : ℕ)
    (ix iy iz : ℕ) (hx : ix < n) (hy : iy < n) (hz : iz < n) :
    ((List.range n).flatMap fun z =>
        (List.range n).flatMap fun y =>
          (List.range n).map fun x => g x y z)[(iz * n + iy) * n + ix]? =
      some (g ix iy iz) := by
  have hidx : (iz * n + iy) * n + ix = iz * (n * n) + (iy * n + ix) := by ring
  have hjlt : iy * n + ix < n * n := by
    calc iy * n + ix < iy * n + n := by omega
    _ = (iy + 1) * n := (Nat.succ_mul iy n).symm
    _ ≤ n * n := Nat.mul_le_mul_right n hy
  rw [hidx]
  rw [flatMap_uniform_getElem _ (n * n) _ iz (iy * n + ix)
    (by simpa using hz)
    (fun z _ => (flatMap_uniform_length _ n _ (fun y _ => by simp)).trans
      (by simp))
    hjlt]
  simp only [List.get_eq_getElem, List.getElem_range]
  rw [flatMap_uniform_getElem _ n _ iy ix (by simpa using hy)
    (fun y _ => by simp) hx]
  simp only [List.get_eq_getElem, List.getElem_range]
  rw [List.getElem?_map, List.getElem?_range hx]
  rfl

theorem fieldValueAt_eq_gradVal (balls : List Ball) (gridMin : Vec3)
    (cellSize : ℚ) (ix iy iz : ℕ) :
    fieldValueAt balls gridMin cellSize ix iy iz =
      (evalFieldAndGradient (gridMin.x + (ix : ℚ) * cellSize)
        (gridMin.y + (iy : ℚ) * cellSize) (gridMin.z + (iz : ℚ) * cellSize)
        balls).val :=
  (field_fold_eq_val (gridMin.x + (ix : ℚ) * cellSize)
    (gridMin.y + (iy : ℚ) * cellSize) (gridMin.z + (iz : ℚ) * cellSize)
    balls ⟨0, 0, 0, 0⟩).symm

/-- Claim C10: for every ball list, grid and in-range grid point, the
scalar stored by evaluateField equals the val component computed by
evalFieldAndGradient at the same coordinates; both are the sum over
balls of radius squared over squared distance plus the 0.0001 epsilon.
The Float32Array storage of the source is abstracted to exact values. -/
theorem C10_field_evaluators_agree (balls : List Ball) (gridMin : Vec3)
    (cellSize : ℚ) (res : ℕ) (ix iy iz : ℕ) (hx : ix < res + 1)
    (hy : iy < res + 1) (hz : iz < res + 1) :
    (evaluateField balls gridMin cellSize res)[(iz * (res + 1) + iy) *
        (res + 1) + ix]? =
      some (evalFieldAndGradient (gridMin.x + (ix : ℚ) * cellSize)
        (gridMin.y + (iy : ℚ) * cellSize) (gridMin.z + (iz : ℚ) * cellSize)
        balls).val := by
  have h := triple_nested_getElem
    (fun x y z => fieldValueAt balls gridMin cellSize x y z) (res + 1)
    ix iy iz hx hy hz
  dsimp only at h
  rw [fieldValueAt_eq_gradVal balls gridMin cellSize ix iy iz] at h
  exact h

/-- Witness for claim C10: one unit ball at the origin, unit grid, the
grid point (0,0,0). -/
theorem C10_field_evaluators_agree_witness :
    (evaluateField [⟨0, 0, 0, 1⟩] ⟨0, 0, 0⟩ 1 1)[0]? =
      some (evalFieldAndGradient 0 0 0 [⟨0, 0, 0, 1⟩]).val := by
  with_unfolding_all
    (exact C10_field_evaluators_agree [⟨0, 0, 0, 1⟩] ⟨0, 0, 0⟩ 1 1 0 0 0
      (by decide) (by decide) (by decide))

/-! Theorems for claim C8: smoothing never changes topology. -/

theorem foldl_len_preserve {α β : Type} (f : List α → β → List α)
    (hf : ∀ acc b, (f acc b).length = acc.length) :
    ∀ (l : List β) (init : List α), (l.foldl f init).length = init.length := by
  intro l
  induction l with
  | nil => intro init; rfl
  | cons b l ih =>
    intro init
    rw [List.foldl_cons, ih]
    exact hf init b

theorem length_laplacianPass (tris : List Tri) (vs : List Vec3) :
    (laplacianPass tris vs).length = vs.length := by
  unfold laplacianPass
  apply foldl_len_preserve
  intro acc i
  dsimp only
  split_ifs
  · rfl
  · exact List.length_set acc i _

theorem length_projectPass (balls : List Ball) (threshold : ℚ)
    (vs : List Vec3) : (projectPass balls threshold vs).length = vs.length := by
  unfold projectPass
  apply foldl_len_preserve
  intro acc i
  dsimp only
  split_ifs
  · rfl
  · exact List.length_set acc i _

theorem length_smoothIter (tris : List Tri) (balls : List Ball)
    (threshold : ℚ) :
    ∀ (k : ℕ) (vs : List Vec3),
      (smoothIter tris balls threshold k vs).length = vs.length := by
  intro k
  induction k with
  | zero => intro vs; rfl
  | succ k ih =>
    intro vs
    rw [smoothIter, ih, length_projectPass, length_laplacianPass]

/-- Claim C8: smoothMesh modifies only vertex positions, never the
topology: the triangle list is returned unchanged and the vertex list
keeps its length, for every input mesh, ball list, threshold and
iteration count. -/
theorem C8_smooth_preserves_topology (vs : List Vec3) (tris : List Tri)
    (balls : List Ball) (threshold : ℚ) (iterations : ℕ) :
    (smoothMesh vs tris balls threshold iterations).2 = tris ∧
      (smoothMesh vs tris balls threshold iterations).1.length = vs.length :=
  ⟨rfl, length_smoothIter tris balls threshold iterations vs⟩

/-! Theorem for claim C5: the empty-ball result of the generator. -/

/-- Claim C5, evaluated at the failing input: with an empty ball list
the generator returns the single-point degenerate mesh with zero
triangles but with NO normals array, although the function doc comment
and the mesh contract of the spec promise one.  The 256-entry case
tables and the square root are parameters; the early return never
touches them. -/
theorem C5_empty_balls (edgeTable : List ℕ) (triTable : List (List Int))
    (sq : ℚ → ℚ) (res : ℕ) (threshold : ℚ) :
    generateMetaballMesh edgeTable triTable sq [] res threshold =
        ⟨[⟨0, 0, 0⟩], [], none⟩ ∧
      (generateMetaballMesh edgeTable triTable sq [] res
          threshold).vertices.length = 1 ∧
      (generateMetaballMesh edgeTable triTable sq [] res
          threshold).triangles.length = 0 ∧
      (generateMetaballMesh edgeTable triTable sq [] res threshold).normals =
        none :=
  ⟨rfl, rfl, rfl, rfl⟩

/-! Theorem for claim C4: per-sample determinism. -/

/-- Claim C4: for a fixed scene and fixed pixel and sub-sample
coordinates, two runs of the per-sample shading computation produce an
identical output color, an identical final seed, and bit-identical
jitter sequences (the logged fastRand outputs), whatever PRNG state the
previous sample left behind: the sample starts by overwriting the seed
with a pure function of the coordinates, and everything downstream is a
deterministic function of that state.  The statement holds for every
interpretation of the abstract square root and sky lookup. -/
theorem C4_sample_determinism (sq : ℚ → ℚ) (sky : Option (ℚ → ℚ → ℚ → Color))
    (scene : List SceneObj) (px py ax ay : ℕ) (s₁ s₂ : ℕ) :
    renderSample sq sky scene px py ax ay s₁ =
        renderSample sq sky scene px py ax ay s₂ ∧
      (renderSample sq sky scene px py ax ay s₁).2.log =
        (renderSample sq sky scene px py ax ay s₂).2.log ∧
      (renderSample sq sky scene px py ax ay s₁).1 =
        (renderSample sq sky scene px py ax ay s₂).1 :=
  ⟨rfl, rfl, rfl⟩

end PixelForge
